import Mathlib

/-!
# Session token codec (`frontend/sessiontoken/token.go`)

A shallow embedding of `SessionToken.Encode` and `SessionToken.Decode`
together with the Go standard-library routines they call
(`crypto/sha256`, `crypto/hmac`, `encoding/hex`, `encoding/base64`,
`encoding/json`, `bytes.Split`, `bytes.Equal`), and of the cache lookup
`getFromCache` (`model/cache.go`), followed by theorems about the wire
format, the round trip, the failure modes of the decoder and the error
mapping of the cache lookup.

Byte strings (`[]byte`, and Go `string`s, which are byte strings too) are
`List UInt8`.  Word arithmetic of SHA-256 is done on `Nat` modulo `2^32`.

The library routines follow the Go sources.  Three places where releases of
Go differ are noted at the definitions:

* the bytes `json.Marshal` writes for a byte of a string that is not valid
  UTF-8: the encoder of `encoding/json` writes the six bytes `\ufffd`, and
  `json.escape` follows it; the encoder built on `encoding/json/v2` writes the
  three bytes `EF BF BD` of `U+FFFD` itself.  Both are read back by
  `json.Unmarshal` as `U+FFFD`, so the decoded token is the same; the JSON
  bytes, the payload and the signature differ.  The statement of the wire
  format fixes the literal of a string field only where the field is valid
  UTF-8, and otherwise says what the literal reads back as;
* the escapes `json.Marshal` writes for `\b` and `\f`;
* the capacity of the subslices of `bytes.Split`.

The helpers `base64Trim` and `base64Pad` of the package are not among the
sources at hand and are modelled from the spec.
-/

namespace SessionTokenCodec

/-- A Go `byte`. -/
abbrev Byte := UInt8

/-- A Go `[]byte` (or the bytes of a Go `string`). -/
abbrev Bytes := List Byte

/-- The bytes of an ASCII string literal of the source. -/
def lit (s : String) : Bytes := s.toList.map fun c => UInt8.ofNat c.toNat

/-! ## `crypto/sha256` -/

namespace sha256

/-- The 64 round constants of SHA-256 (`_K` in `sha256block.go`). -/
def K : List Nat :=
  [0x428a2f98, 0x71374491, 0xb5c0fbcf, 0xe9b5dba5, 0x3956c25b, 0x59f111f1, 0x923f82a4, 0xab1c5ed5,
   0xd807aa98, 0x12835b01, 0x243185be, 0x550c7dc3, 0x72be5d74, 0x80deb1fe, 0x9bdc06a7, 0xc19bf174,
   0xe49b69c1, 0xefbe4786, 0x0fc19dc6, 0x240ca1cc, 0x2de92c6f, 0x4a7484aa, 0x5cb0a9dc, 0x76f988da,
   0x983e5152, 0xa831c66d, 0xb00327c8, 0xbf597fc7, 0xc6e00bf3, 0xd5a79147, 0x06ca6351, 0x14292967,
   0x27b70a85, 0x2e1b2138, 0x4d2c6dfc, 0x53380d13, 0x650a7354, 0x766a0abb, 0x81c2c92e, 0x92722c85,
   0xa2bfe8a1, 0xa81a664b, 0xc24b8b70, 0xc76c51a3, 0xd192e819, 0xd6990624, 0xf40e3585, 0x106aa070,
   0x19a4c116, 0x1e376c08, 0x2748774c, 0x34b0bcb5, 0x391c0cb3, 0x4ed8aa4a, 0x5b9cca4f, 0x682e6ff3,
   0x748f82ee, 0x78a5636f, 0x84c87814, 0x8cc70208, 0x90befffa, 0xa4506ceb, 0xbef9a3f7, 0xc67178f2]

/-- The block size of SHA-256 in bytes (`sha256.BlockSize`). -/
def BlockSize : Nat := 64

/-- The digest size of SHA-256 in bytes (`sha256.Size`). -/
def Size : Nat := 32

/-- Addition of 32-bit words. -/
def add32 (x y : Nat) : Nat := (x + y) % 2 ^ 32

/-- Rotation of a 32-bit word to the right (`bits.RotateLeft32(x, -n)`). -/
def rotr (x n : Nat) : Nat := ((x >>> n) ||| (x <<< (32 - n))) % 2 ^ 32

/-- Bitwise complement of a 32-bit word. -/
def not32 (x : Nat) : Nat := (2 ^ 32 - 1) ^^^ (x % 2 ^ 32)

/-- The chaining value: the eight working words `a .. h`. -/
structure State where
  a : Nat
  b : Nat
  c : Nat
  d : Nat
  e : Nat
  f : Nat
  g : Nat
  h : Nat
deriving DecidableEq, Repr

/-- The initial chaining value (`init0 .. init7`). -/
def init : State :=
  ⟨0x6A09E667, 0xBB67AE85, 0x3C6EF372, 0xA54FF53A, 0x510E527F, 0x9B05688C, 0x1F83D9AB, 0x5BE0CD19⟩

/-- One big-endian 32-bit word out of four bytes. -/
def word (b0 b1 b2 b3 : Byte) : Nat :=
  b0.toNat <<< 24 ||| b1.toNat <<< 16 ||| b2.toNat <<< 8 ||| b3.toNat

/-- The 16 big-endian words of a block (missing bytes read as zero). -/
def blockWords : Nat → Bytes → List Nat
  | 0, _ => []
  | n + 1, b0 :: b1 :: b2 :: b3 :: rest => word b0 b1 b2 b3 :: blockWords n rest
  | n + 1, _ => 0 :: blockWords n []

/-- Extends the message schedule by `n` words; `w` holds the schedule so far,
most recent word first. -/
def schedule : Nat → List Nat → List Nat
  | 0, w => w
  | n + 1, w =>
    let v1 := w.getD 1 0
    let v2 := w.getD 14 0
    let t1 := rotr v1 17 ^^^ rotr v1 19 ^^^ (v1 >>> 10)
    let t2 := rotr v2 7 ^^^ rotr v2 18 ^^^ (v2 >>> 3)
    schedule n (add32 (add32 (add32 t1 (w.getD 6 0)) t2) (w.getD 15 0) :: w)

/-- One round of the compression function with round constant `k` and
schedule word `w`. -/
def round (s : State) (k w : Nat) : State :=
  let t1 := add32 (add32 (add32 (add32 s.h
    (rotr s.e 6 ^^^ rotr s.e 11 ^^^ rotr s.e 25))
    ((s.e &&& s.f) ^^^ (not32 s.e &&& s.g))) k) w
  let t2 := add32 (rotr s.a 2 ^^^ rotr s.a 13 ^^^ rotr s.a 22)
    ((s.a &&& s.b) ^^^ (s.a &&& s.c) ^^^ (s.b &&& s.c))
  ⟨add32 t1 t2, s.a, s.b, s.c, add32 s.d t1, s.e, s.f, s.g⟩

/-- The 64 rounds over the constants and the schedule. -/
def rounds : State → List Nat → List Nat → State
  | s, k :: ks, w :: ws => rounds (round s k w) ks ws
  | s, _, _ => s

/-- The compression function on one 64-byte block (`block` for a single
chunk). -/
def compress (s : State) (blk : Bytes) : State :=
  let w := (schedule 48 (blockWords 16 blk).reverse).reverse
  let r := rounds s K w
  ⟨add32 s.a r.a, add32 s.b r.b, add32 s.c r.c, add32 s.d r.d,
   add32 s.e r.e, add32 s.f r.f, add32 s.g r.g, add32 s.h r.h⟩

/-- Runs the compression function over `n` consecutive blocks. -/
def blocks : Nat → State → Bytes → State
  | 0, s, _ => s
  | n + 1, s, data => blocks n (compress s (data.take 64)) (data.drop 64)

/-- The eight bytes of the big-endian 64-bit integer `n`. -/
def be64 (n : Nat) : Bytes :=
  [UInt8.ofNat (n >>> 56), UInt8.ofNat (n >>> 48), UInt8.ofNat (n >>> 40), UInt8.ofNat (n >>> 32),
   UInt8.ofNat (n >>> 24), UInt8.ofNat (n >>> 16), UInt8.ofNat (n >>> 8), UInt8.ofNat n]

/-- The padded message: a `0x80` byte, zeros up to 56 modulo 64, and the bit
length as a big-endian 64-bit integer (`checkSum`). -/
def pad (msg : Bytes) : Bytes :=
  msg ++ 0x80 :: List.replicate ((119 - msg.length % 64) % 64) 0
    ++ be64 (msg.length * 8 % 2 ^ 64)

/-- The four bytes of a 32-bit word, big-endian. -/
def wordBytes (w : Nat) : Bytes :=
  [UInt8.ofNat (w >>> 24), UInt8.ofNat (w >>> 16), UInt8.ofNat (w >>> 8), UInt8.ofNat w]

/-- The digest bytes of a chaining value. -/
def digest (s : State) : Bytes :=
  wordBytes s.a ++ wordBytes s.b ++ wordBytes s.c ++ wordBytes s.d ++
  wordBytes s.e ++ wordBytes s.f ++ wordBytes s.g ++ wordBytes s.h

/-- The SHA-256 digest of a message (`sha256.Sum256`, or `New`, `Write`,
`Sum(nil)`). -/
def sum (msg : Bytes) : Bytes :=
  let p := pad msg
  digest (blocks (p.length / 64) init p)

end sha256

/-! ## `crypto/hmac` -/

namespace hmac

/-- The key block of `hmac.New`: a key longer than the block size is hashed
first, then the key is copied into a zeroed block of `BlockSize` bytes. -/
def keyBlock (key : Bytes) : Bytes :=
  let k := if key.length > sha256.BlockSize then sha256.sum key else key
  k ++ List.replicate (sha256.BlockSize - k.length) 0

/-- The inner pad: every byte of the key block xor `0x36`. -/
def ipad (key : Bytes) : Bytes := (keyBlock key).map fun b => b ^^^ 0x36

/-- The outer pad: every byte of the key block xor `0x5c`. -/
def opad (key : Bytes) : Bytes := (keyBlock key).map fun b => b ^^^ 0x5c

/-- The tag of `hmac.New(sha256.New, key)` after `Write(msg)` and
`Sum(nil)`. -/
def sum (key msg : Bytes) : Bytes :=
  sha256.sum (opad key ++ sha256.sum (ipad key ++ msg))

end hmac

/-! ## `encoding/hex` -/

namespace hex

/-- The digit table of `encoding/hex` (`hextable`). -/
def hextable : Bytes := lit "0123456789abcdef"

/-- The bytes written by `hex.Encode(dst, src)`: two lower-case digits per
source byte. -/
def encode : Bytes → Bytes
  | [] => []
  | v :: rest =>
    hextable.getD (v.toNat / 16) 0 :: hextable.getD (v.toNat % 16) 0 :: encode rest

end hex

/-! ## `encoding/base64`, `URLEncoding` -/

namespace base64

/-- The alphabet of `base64.URLEncoding` (`encodeURL`). -/
def encodeURL : Bytes :=
  lit "ABCDEFGHIJKLMNOPQRSTUVWXYZabcdefghijklmnopqrstuvwxyz0123456789-_"

/-- The padding character of `URLEncoding` (`StdPadding`). -/
def padChar : Byte := 61

/-- The character of a 6-bit value (`enc.encode[v & 0x3F]`). -/
def enc (v : Nat) : Byte := encodeURL.getD (v % 64) 0

/-- The length of the padded encoding of `n` bytes (`EncodedLen`). -/
def EncodedLen (n : Nat) : Nat := (n + 2) / 3 * 4

/-- The length reserved for decoding `n` padded characters (`DecodedLen`). -/
def DecodedLen (n : Nat) : Nat := n / 4 * 3

/-- The bytes written by `URLEncoding.Encode(dst, src)`: four characters per
three source bytes, the last group padded with `=`. -/
def encode : Bytes → Bytes
  | b0 :: b1 :: b2 :: rest =>
    let val := b0.toNat * 65536 + b1.toNat * 256 + b2.toNat
    enc (val / 262144) :: enc (val / 4096) :: enc (val / 64) :: enc val :: encode rest
  | [b0, b1] =>
    let val := b0.toNat * 65536 + b1.toNat * 256
    [enc (val / 262144), enc (val / 4096), enc (val / 64), padChar]
  | [b0] =>
    let val := b0.toNat * 65536
    [enc (val / 262144), enc (val / 4096), padChar, padChar]
  | [] => []

/-- The 6-bit value of a character of the alphabet, `0xff` for any other
byte (`enc.decodeMap`). -/
def decodeMap (c : Byte) : Nat :=
  if 65 ≤ c.toNat ∧ c.toNat ≤ 90 then c.toNat - 65
  else if 97 ≤ c.toNat ∧ c.toNat ≤ 122 then c.toNat - 71
  else if 48 ≤ c.toNat ∧ c.toNat ≤ 57 then c.toNat + 4
  else if c.toNat = 45 then 62
  else if c.toNat = 95 then 63
  else 0xff

/-- The source with the leading `\n` and `\r` bytes skipped, and how many
were skipped. -/
def skipNewlines : Bytes → Nat → Bytes × Nat
  | c :: rest, si => if c = 10 ∨ c = 13 then skipNewlines rest (si + 1) else (c :: rest, si)
  | [], si => ([], si)

/-- The bytes a quantum of `dlen` characters yields: `dlen - 1` bytes of the
24-bit value assembled from the 6-bit values in `dbuf`. -/
def quantumBytes (dbuf : List Nat) (dlen : Nat) : Bytes :=
  let val := dbuf.getD 0 0 * 262144 + dbuf.getD 1 0 * 4096 + dbuf.getD 2 0 * 64 + dbuf.getD 3 0
  ([UInt8.ofNat (val / 65536), UInt8.ofNat (val / 256), UInt8.ofNat val] : Bytes).take (dlen - 1)

/-- The result of `decodeQuantum`: the unread source, the new source index,
the decoded bytes and the error, a `CorruptInputError` offset. -/
structure Quantum where
  rest : Bytes
  si : Nat
  out : Bytes
  err : Option Nat

/-- One call of `decodeQuantum` (non-strict, padded): reads up to four
characters of the alphabet, skipping `\n` and `\r`; `src` is the unread
source, `si` its index, `srcLen` the length of the whole source and `dbuf`
the 6-bit values read so far. -/
def decodeQuantum (srcLen : Nat) : Bytes → Nat → List Nat → Quantum
  | [], si, dbuf =>
    if dbuf.length = 0 then ⟨[], si, [], none⟩ else ⟨[], si, [], some (si - dbuf.length)⟩
  | c :: rest, si, dbuf =>
    let j := dbuf.length
    if decodeMap c ≠ 0xff then
      if j = 3 then ⟨rest, si + 1, quantumBytes (dbuf ++ [decodeMap c]) 4, none⟩
      else decodeQuantum srcLen rest (si + 1) (dbuf ++ [decodeMap c])
    else if c = 10 ∨ c = 13 then decodeQuantum srcLen rest (si + 1) dbuf
    else if c ≠ padChar then ⟨rest, si + 1, [], some si⟩
    else if j < 2 then ⟨rest, si + 1, [], some si⟩
    else if j = 2 then
      match skipNewlines rest (si + 1) with
      | ([], _) => ⟨[], srcLen, [], some srcLen⟩
      | (c2 :: rest2, si2) =>
        if c2 ≠ padChar then ⟨c2 :: rest2, si2, [], some (si2 - 1)⟩
        else
          match skipNewlines rest2 (si2 + 1) with
          | ([], si3) => ⟨[], si3, quantumBytes dbuf j, none⟩
          | (r3, si3) => ⟨r3, si3, quantumBytes dbuf j, some si3⟩
    else
      match skipNewlines rest (si + 1) with
      | ([], si3) => ⟨[], si3, quantumBytes dbuf j, none⟩
      | (r3, si3) => ⟨r3, si3, quantumBytes dbuf j, some si3⟩

/-- The loop of `URLEncoding.Decode`: quanta are decoded until the source is
used up or one of them fails (the fast paths of the library decode the same
quanta eight and four characters at a time). -/
def decodeLoop (srcLen : Nat) : Nat → Bytes → Nat → Bytes → Bytes × Option Nat
  | 0, _, _, acc => (acc, none)
  | fuel + 1, src, si, acc =>
    match src with
    | [] => (acc, none)
    | _ =>
      let q := decodeQuantum srcLen src si []
      match q.err with
      | some e => (acc ++ q.out, some e)
      | none => decodeLoop srcLen fuel q.rest q.si (acc ++ q.out)

/-- The bytes and the error of `URLEncoding.Decode(dst, src)` for a `dst` of
`DecodedLen(len(src))` bytes. -/
def decode (src : Bytes) : Bytes × Option Nat :=
  decodeLoop src.length src.length src 0 []

end base64

/-! ## `unicode/utf8` -/

namespace utf8

/-- The rune `U+FFFD` returned for invalid input (`utf8.RuneError`). -/
def RuneError : Nat := 0xFFFD

/-- Whether `b` is a continuation byte within `lo .. hi`. -/
def inRange (b : Byte) (lo hi : Nat) : Bool := decide (lo ≤ b.toNat) && decide (b.toNat ≤ hi)

/-- The rune at the start of `p` and its width in bytes (`utf8.DecodeRune`):
`(RuneError, 0)` for empty input and `(RuneError, 1)` for an invalid or
incomplete encoding (over-long forms, surrogates and values above `U+10FFFF`
included). -/
def DecodeRune : Bytes → Nat × Nat
  | [] => (RuneError, 0)
  | b0 :: rest =>
    if b0.toNat < 0x80 then (b0.toNat, 1)
    else if b0.toNat < 0xC2 then (RuneError, 1)
    else if b0.toNat < 0xE0 then
      match rest with
      | b1 :: _ =>
        if inRange b1 0x80 0xBF then ((b0.toNat - 0xC0) * 64 + (b1.toNat - 0x80), 2)
        else (RuneError, 1)
      | _ => (RuneError, 1)
    else if b0.toNat < 0xF0 then
      match rest with
      | b1 :: b2 :: _ =>
        if inRange b1 (if b0.toNat = 0xE0 then 0xA0 else 0x80) (if b0.toNat = 0xED then 0x9F else 0xBF)
            && inRange b2 0x80 0xBF then
          ((b0.toNat - 0xE0) * 4096 + (b1.toNat - 0x80) * 64 + (b2.toNat - 0x80), 3)
        else (RuneError, 1)
      | _ => (RuneError, 1)
    else if b0.toNat < 0xF5 then
      match rest with
      | b1 :: b2 :: b3 :: _ =>
        if inRange b1 (if b0.toNat = 0xF0 then 0x90 else 0x80) (if b0.toNat = 0xF4 then 0x8F else 0xBF)
            && inRange b2 0x80 0xBF && inRange b3 0x80 0xBF then
          ((b0.toNat - 0xF0) * 262144 + (b1.toNat - 0x80) * 4096 + (b2.toNat - 0x80) * 64
            + (b3.toNat - 0x80), 4)
        else (RuneError, 1)
      | _ => (RuneError, 1)
    else (RuneError, 1)

/-- The UTF-8 encoding of a rune (`utf8.EncodeRune`, `utf8.AppendRune`);
surrogates and values above `U+10FFFF` are encoded as `U+FFFD`. -/
def EncodeRune (r : Nat) : Bytes :=
  if r < 0x80 then [UInt8.ofNat r]
  else if r < 0x800 then [UInt8.ofNat (0xC0 + r / 64), UInt8.ofNat (0x80 + r % 64)]
  else if 0x10FFFF < r ∨ (0xD800 ≤ r ∧ r < 0xE000) then [0xEF, 0xBF, 0xBD]
  else if r < 0x10000 then
    [UInt8.ofNat (0xE0 + r / 4096), UInt8.ofNat (0x80 + r / 64 % 64), UInt8.ofNat (0x80 + r % 64)]
  else
    [UInt8.ofNat (0xF0 + r / 262144), UInt8.ofNat (0x80 + r / 4096 % 64),
     UInt8.ofNat (0x80 + r / 64 % 64), UInt8.ofNat (0x80 + r % 64)]

/-- Whether `p` consists of valid UTF-8 encodings only (`utf8.Valid`); `fuel`
bounds the number of runes read. -/
def validAux : Nat → Bytes → Bool
  | _, [] => true
  | 0, _ :: _ => false
  | fuel + 1, b :: rest =>
    let d := DecodeRune (b :: rest)
    if d.1 = RuneError ∧ d.2 = 1 then false else validAux fuel ((b :: rest).drop d.2)

/-- Whether `p` consists of valid UTF-8 encodings only (`utf8.Valid`). -/
def Valid (p : Bytes) : Bool := validAux p.length p

end utf8

/-! ## The token (`token.go`, lines 13-35) -/

/-- A Go `int64`. -/
abbrev Int64 := { n : Int // -9223372036854775808 ≤ n ∧ n ≤ 9223372036854775807 }

/-- The wire value of `AuthTypeEmailPassword`. -/
def AuthTypeEmailPassword : Bytes := lit "email_password"
/-- The wire value of `AuthTypeEmailCaptcha`. -/
def AuthTypeEmailCaptcha : Bytes := lit "email_captcha"
/-- The wire value of `AuthTypePhonePassword`. -/
def AuthTypePhonePassword : Bytes := lit "phone_password"
/-- The wire value of `AuthTypePhoneCaptcha`. -/
def AuthTypePhoneCaptcha : Bytes := lit "phone_captcha"
/-- The wire value of `AuthTypeOAuthQQ`. -/
def AuthTypeOAuthQQ : Bytes := lit "oauth_qq"
/-- The wire value of `AuthTypeOAuthWechat`. -/
def AuthTypeOAuthWechat : Bytes := lit "oauth_wechat"
/-- The wire value of `AuthTypeOAuthWeibo`. -/
def AuthTypeOAuthWeibo : Bytes := lit "oauth_weibo"

/-- The struct `SessionToken`; a Go `string` is any byte string. -/
structure SessionToken where
  SessionId : Bytes
  TokenId : Bytes
  Authenticated : Bool
  UserId : Int64
  AuthType : Bytes
  PasswordTag : Bytes
  ExpAccess : Int64
  ExpRefresh : Int64
deriving DecidableEq

/-- The errors the codec can return: `errors.New(msg)`, the offset of a
`base64.CorruptInputError`, and the two kinds of error of `encoding/json`
that decoding into a `SessionToken` can produce. -/
inductive GoError where
  | errorString (msg : String)
  | corruptInput (offset : Nat)
  | jsonSyntax
  | jsonUnmarshalType
deriving DecidableEq

/-! ## `strconv` -/

namespace strconv

/-- The decimal digits of `n`, most significant first, in front of `acc`
(the loop of `formatBits`; a `uint64` has at most 20 digits). -/
def formatDigits : Nat → Nat → Bytes → Bytes
  | 0, _, acc => acc
  | fuel + 1, n, acc =>
    if n < 10 then UInt8.ofNat (48 + n) :: acc
    else formatDigits fuel (n / 10) (UInt8.ofNat (48 + n % 10) :: acc)

/-- The bytes of `strconv.AppendInt(nil, n, 10)` for an `int64`. -/
def formatInt (n : Int64) : Bytes :=
  if n.val < 0 then 45 :: formatDigits 20 n.val.natAbs [] else formatDigits 20 n.val.natAbs []

end strconv

/-! ## `encoding/json`: `Marshal` -/

namespace json

/-- The table `htmlSafeSet`: the ASCII bytes written without escaping when
HTML escaping is on, all of `0x20 .. 0x7f` but `"`, `&`, `<`, `>`, `\`. -/
def htmlSafeSet (b : Byte) : Bool :=
  decide (0x20 ≤ b.toNat) && decide (b.toNat < 0x80) && b != 34 && b != 38 && b != 60 && b != 62
    && b != 92

/-- The lower-case hexadecimal digit of `v` (`hex[v]` in `encode.go`). -/
def hexDigit (v : Nat) : Byte := hex.hextable.getD (v % 16) 0

/-- The body of `appendString` with HTML escaping on: the escaped form of the
string bytes `src`, without the surrounding quotes.  A byte that is not valid
UTF-8 is written as the six bytes `\ufffd`, as the encoder of `encoding/json`
does; the encoder built on `encoding/json/v2` writes the three bytes
`EF BF BD` instead, which `Unmarshal` reads back to the same rune `U+FFFD`.
`U+2028` and `U+2029` are escaped too.
Backspace and form feed are written with their short escapes, as Go 1.22 and
later do; earlier releases write the six-byte escapes, which `Unmarshal` reads
back to the same bytes. -/
def escape : Nat → Bytes → Bytes
  | _, [] => []
  | 0, _ :: _ => []
  | fuel + 1, b :: rest =>
    if b.toNat < 0x80 then
      if htmlSafeSet b then b :: escape fuel rest
      else if b = 92 ∨ b = 34 then 92 :: b :: escape fuel rest
      else if b = 8 then 92 :: 98 :: escape fuel rest
      else if b = 12 then 92 :: 102 :: escape fuel rest
      else if b = 10 then 92 :: 110 :: escape fuel rest
      else if b = 13 then 92 :: 114 :: escape fuel rest
      else if b = 9 then 92 :: 116 :: escape fuel rest
      else 92 :: 117 :: 48 :: 48 :: hexDigit (b.toNat / 16) :: hexDigit b.toNat :: escape fuel rest
    else
      let d := utf8.DecodeRune (b :: rest)
      if d.1 = utf8.RuneError ∧ d.2 = 1 then lit "\\ufffd" ++ escape fuel rest
      else if d.1 = 0x2028 ∨ d.1 = 0x2029 then
        lit "\\u202" ++ hexDigit d.1 :: escape fuel ((b :: rest).drop d.2)
      else (b :: rest).take d.2 ++ escape fuel ((b :: rest).drop d.2)

/-- The JSON string literal `appendString` writes for a Go string. -/
def quote (s : Bytes) : Bytes := 34 :: escape s.length s ++ [34]

/-- The literal of a Go `bool`. -/
def boolLit (b : Bool) : Bytes := if b then lit "true" else lit "false"

/-- The bytes of `json.Marshal(token)` for a `*SessionToken`: the eight
fields in declaration order under their `json` tags.  The error result is
kept from the signature of `json.Marshal`. -/
def Marshal (token : SessionToken) : Except GoError Bytes :=
  .ok (lit "\x7b\"sid\":" ++ quote token.SessionId
    ++ lit ",\"token_id\":" ++ quote token.TokenId
    ++ lit ",\"authenticated\":" ++ boolLit token.Authenticated
    ++ lit ",\"user_id\":" ++ strconv.formatInt token.UserId
    ++ lit ",\"auth_type\":" ++ quote token.AuthType
    ++ lit ",\"password_tag\":" ++ quote token.PasswordTag
    ++ lit ",\"exp_access\":" ++ strconv.formatInt token.ExpAccess
    ++ lit ",\"exp_refresh\":" ++ strconv.formatInt token.ExpRefresh
    ++ lit "\x7d")

end json

/-! ## `encoding/json`: `Unmarshal` -/

namespace json

/-- A parsed JSON value; a number keeps the bytes of its literal. -/
inductive Value where
  | null
  | bool (b : Bool)
  | number (raw : Bytes)
  | string (s : Bytes)
  | array (elems : List Value)
  | object (members : List (Bytes × Value))

/-- The white space of the scanner (`isSpace`). -/
def isSpace (c : Byte) : Bool := c == 32 || c == 9 || c == 13 || c == 10

/-- The input without its leading white space. -/
def skipSpace : Bytes → Bytes
  | [] => []
  | c :: rest => if isSpace c then skipSpace rest else c :: rest

/-- The value of a hexadecimal digit of either case. -/
def hexVal (c : Byte) : Option Nat :=
  if 48 ≤ c.toNat ∧ c.toNat ≤ 57 then some (c.toNat - 48)
  else if 97 ≤ c.toNat ∧ c.toNat ≤ 102 then some (c.toNat - 87)
  else if 65 ≤ c.toNat ∧ c.toNat ≤ 70 then some (c.toNat - 55)
  else none

/-- The rune of a `\uXXXX` escape at the start of `s` (`getu4`; `none` is
its result `-1`). -/
def getu4 : Bytes → Option Nat
  | b :: u :: h1 :: h2 :: h3 :: h4 :: _ =>
    if b = 92 ∧ u = 117 then
      match hexVal h1, hexVal h2, hexVal h3, hexVal h4 with
      | some v1, some v2, some v3, some v4 => some (((v1 * 16 + v2) * 16 + v3) * 16 + v4)
      | _, _, _, _ => none
    else none
  | _ => none

/-- The rest of a string literal after its opening quote: the decoded bytes
(appended to `acc`) and the input after the closing quote.  The literal ends
as the scanner ends it, and its contents are decoded as `unquoteBytes`
decodes them: escapes are replaced, `\u` surrogate pairs combined, a lone
surrogate and every byte that is not valid UTF-8 become `U+FFFD`. -/
def unquote : Nat → Bytes → Bytes → Option (Bytes × Bytes)
  | 0, _, _ => none
  | _ + 1, [], _ => none
  | fuel + 1, c :: rest, acc =>
    if c = 34 then some (acc, rest)
    else if c = 92 then
      match rest with
      | [] => none
      | e :: rest2 =>
        if e = 34 ∨ e = 92 ∨ e = 47 then unquote fuel rest2 (acc ++ [e])
        else if e = 98 then unquote fuel rest2 (acc ++ [8])
        else if e = 102 then unquote fuel rest2 (acc ++ [12])
        else if e = 110 then unquote fuel rest2 (acc ++ [10])
        else if e = 114 then unquote fuel rest2 (acc ++ [13])
        else if e = 116 then unquote fuel rest2 (acc ++ [9])
        else if e = 117 then
          match getu4 (c :: rest) with
          | none => none
          | some rr =>
            let rest6 := rest2.drop 4
            if 0xD800 ≤ rr ∧ rr < 0xE000 then
              match getu4 rest6 with
              | some rr1 =>
                if rr < 0xDC00 ∧ 0xDC00 ≤ rr1 ∧ rr1 < 0xE000 then
                  unquote fuel (rest6.drop 6)
                    (acc ++ utf8.EncodeRune ((rr - 0xD800) * 1024 + (rr1 - 0xDC00) + 0x10000))
                else unquote fuel rest6 (acc ++ utf8.EncodeRune utf8.RuneError)
              | none => unquote fuel rest6 (acc ++ utf8.EncodeRune utf8.RuneError)
            else unquote fuel rest6 (acc ++ utf8.EncodeRune rr)
        else none
    else if c.toNat < 0x20 then none
    else if c.toNat < 0x80 then unquote fuel rest (acc ++ [c])
    else
      let d := utf8.DecodeRune (c :: rest)
      unquote fuel ((c :: rest).drop d.2) (acc ++ utf8.EncodeRune d.1)

/-- Whether `c` is a decimal digit. -/
def isDigit (c : Byte) : Bool := decide (48 ≤ c.toNat) && decide (c.toNat ≤ 57)

/-- The leading decimal digits of the input and what follows them. -/
def spanDigits : Bytes → Bytes × Bytes
  | [] => ([], [])
  | c :: rest =>
    if isDigit c then ((spanDigits rest).1.cons c, (spanDigits rest).2) else ([], c :: rest)

/-- The exponent part of a number literal, if any (`stateE`, `stateESign`,
`stateE0`); the input starts after the digits of the number. -/
def scanExp (s : Bytes) : Option (Bytes × Bytes) :=
  match s with
  | e :: r =>
    if e = 101 ∨ e = 69 then
      match r with
      | sg :: r2 =>
        if sg = 43 ∨ sg = 45 then
          match spanDigits r2 with
          | ([], _) => none
          | (ds, r3) => some (e :: sg :: ds, r3)
        else
          match spanDigits r with
          | ([], _) => none
          | (ds, r3) => some (e :: ds, r3)
      | [] => none
    else some ([], s)
  | [] => some ([], s)

/-- The fraction and exponent parts of a number literal, if any (`stateDot`,
`stateDot0`). -/
def scanFrac (s : Bytes) : Option (Bytes × Bytes) :=
  match s with
  | d :: r =>
    if d = 46 then
      match spanDigits r with
      | ([], _) => none
      | (ds, r2) => (scanExp r2).map fun x => (d :: ds ++ x.1, x.2)
    else scanExp s
  | [] => some ([], s)

/-- The digits, fraction and exponent of a number literal after its sign
(`state0`, `state1`). -/
def scanUnsigned (s : Bytes) : Option (Bytes × Bytes) :=
  match s with
  | c :: r =>
    if c = 48 then (scanFrac r).map fun x => (c :: x.1, x.2)
    else if isDigit c then
      (scanFrac (spanDigits r).2).map fun x => (c :: (spanDigits r).1 ++ x.1, x.2)
    else none
  | [] => none

/-- A number literal at the start of the input and what follows it
(`stateNeg` and the states after it). -/
def scanNumber (s : Bytes) : Option (Bytes × Bytes) :=
  match s with
  | c :: r => if c = 45 then (scanUnsigned r).map fun x => (c :: x.1, x.2) else scanUnsigned s
  | [] => none

/-- The rest of the input when it starts with `w`. -/
def dropLiteral (w : Bytes) (s : Bytes) : Option Bytes :=
  if s.take w.length = w then some (s.drop w.length) else none

/-- The nesting limit of the scanner (`maxNestingDepth`). -/
def maxNestingDepth : Nat := 10000

mutual
/-- One JSON value at the start of the input, after optional white space,
and the input that follows it; `depth` counts the enclosing arrays and
objects, `fuel` bounds the recursion (a call uses up input before it
recurses). -/
def parseValue : Nat → Nat → Bytes → Option (Value × Bytes)
  | 0, _, _ => none
  | fuel + 1, depth, s =>
    match skipSpace s with
    | [] => none
    | c :: rest =>
      if c = 123 then
        if maxNestingDepth ≤ depth then none
        else
          match skipSpace rest with
          | [] => none
          | c2 :: rest2 =>
            if c2 = 125 then some (.object [], rest2)
            else parseMembers fuel (depth + 1) (c2 :: rest2) []
      else if c = 91 then
        if maxNestingDepth ≤ depth then none
        else
          match skipSpace rest with
          | [] => none
          | c2 :: rest2 =>
            if c2 = 93 then some (.array [], rest2)
            else parseElems fuel (depth + 1) (c2 :: rest2) []
      else if c = 34 then (unquote rest.length.succ rest []).map fun x => (.string x.1, x.2)
      else if c = 116 then (dropLiteral (lit "rue") rest).map fun r => (.bool true, r)
      else if c = 102 then (dropLiteral (lit "alse") rest).map fun r => (.bool false, r)
      else if c = 110 then (dropLiteral (lit "ull") rest).map fun r => (.null, r)
      else (scanNumber (c :: rest)).map fun x => (.number x.1, x.2)
/-- The members of an object after its opening brace, up to and including
the closing brace. -/
def parseMembers : Nat → Nat → Bytes → List (Bytes × Value) → Option (Value × Bytes)
  | 0, _, _, _ => none
  | fuel + 1, depth, s, acc =>
    match skipSpace s with
    | [] => none
    | q :: rest =>
      if q = 34 then
        match unquote rest.length.succ rest [] with
        | none => none
        | some (key, rest2) =>
          match skipSpace rest2 with
          | [] => none
          | colon :: rest3 =>
            if colon = 58 then
              match parseValue fuel depth rest3 with
              | none => none
              | some (v, rest4) =>
                match skipSpace rest4 with
                | [] => none
                | d :: rest5 =>
                  if d = 44 then parseMembers fuel depth rest5 (acc ++ [(key, v)])
                  else if d = 125 then some (.object (acc ++ [(key, v)]), rest5)
                  else none
            else none
      else none
/-- The elements of an array after its opening bracket, up to and including
the closing bracket. -/
def parseElems : Nat → Nat → Bytes → List Value → Option (Value × Bytes)
  | 0, _, _, _ => none
  | fuel + 1, depth, s, acc =>
    match parseValue fuel depth s with
    | none => none
    | some (v, rest) =>
      match skipSpace rest with
      | [] => none
      | d :: rest2 =>
        if d = 44 then parseElems fuel depth rest2 (acc ++ [v])
        else if d = 93 then some (.array (acc ++ [v]), rest2)
        else none
end

/-- The value a whole input denotes, `none` when `checkValid` rejects the
input with a `SyntaxError`. -/
def parse (data : Bytes) : Option Value :=
  match parseValue (data.length + 1) 0 data with
  | none => none
  | some (v, rest) => if skipSpace rest = [] then some v else none

/-- The value of a string of decimal digits in front of which `acc` has
been read, `none` when a byte is not a digit. -/
def digitsValue : Bytes → Nat → Option Nat
  | [], acc => some acc
  | c :: rest, acc => if isDigit c then digitsValue rest (acc * 10 + (c.toNat - 48)) else none

/-- The result of `strconv.ParseInt(raw, 10, 64)` on a number literal:
`none` when the literal is not a plain integer or is out of the range of
`int64`. -/
def parseInt64 (raw : Bytes) : Option Int64 :=
  match raw with
  | [] => none
  | c :: rest =>
    if c = 45 then
      match rest with
      | [] => none
      | _ :: _ =>
        match digitsValue rest 0 with
        | none => none
        | some v =>
          if h : v ≤ 9223372036854775808 then some ⟨-(v : Int), by omega⟩ else none
    else
      match digitsValue (c :: rest) 0 with
      | none => none
      | some v => if h : v ≤ 9223372036854775807 then some ⟨(v : Int), by omega⟩ else none

/-- The folded form of an object key (`foldName`): ASCII letters in upper
case, and the two runes outside ASCII whose case orbit holds an ASCII letter,
`U+017F` and `U+212A`, replaced by `S` and `K`.  Every other rune outside
ASCII stays outside ASCII when folded and is left as it is here. -/
def foldName : Nat → Bytes → Bytes
  | _, [] => []
  | 0, _ :: _ => []
  | fuel + 1, c :: rest =>
    if c.toNat < 0x80 then
      (if 97 ≤ c.toNat ∧ c.toNat ≤ 122 then UInt8.ofNat (c.toNat - 32) else c) :: foldName fuel rest
    else
      let d := utf8.DecodeRune (c :: rest)
      if d.1 = 0x17F then 83 :: foldName fuel ((c :: rest).drop d.2)
      else if d.1 = 0x212A then 75 :: foldName fuel ((c :: rest).drop d.2)
      else (c :: rest).take d.2 ++ foldName fuel ((c :: rest).drop d.2)

/-- The fields of `SessionToken`. -/
inductive Field where
  | SessionId | TokenId | Authenticated | UserId | AuthType | PasswordTag | ExpAccess | ExpRefresh
deriving DecidableEq

/-- The `json` tag of a field. -/
def Field.name : Field → Bytes
  | .SessionId => lit "sid"
  | .TokenId => lit "token_id"
  | .Authenticated => lit "authenticated"
  | .UserId => lit "user_id"
  | .AuthType => lit "auth_type"
  | .PasswordTag => lit "password_tag"
  | .ExpAccess => lit "exp_access"
  | .ExpRefresh => lit "exp_refresh"

/-- The fields in declaration order. -/
def fields : List Field :=
  [.SessionId, .TokenId, .Authenticated, .UserId, .AuthType, .PasswordTag, .ExpAccess, .ExpRefresh]

/-- The field an object key selects: the one whose tag equals the key, or
else equals it under case folding; `none` for a key that is skipped. -/
def fieldFor (key : Bytes) : Option Field :=
  match fields.find? fun f => f.name = key with
  | some f => some f
  | none => fields.find? fun f => foldName f.name.length f.name = foldName key.length key

/-- The state of a decode: the first saved error (`d.savedError`) and the
struct being filled. -/
abbrev DecodeState := Option GoError × SessionToken

/-- Keeps the first saved error (`saveError`). -/
def saveError (st : DecodeState) (e : GoError) : DecodeState :=
  match st.1 with
  | none => (some e, st.2)
  | some _ => st

/-- Stores one member value in its field (`literalStore`, and `array` and
`object` for a composite value): a value of the field's JSON type is
assigned, `null` leaves the field as it is, and anything else saves an
`UnmarshalTypeError` and leaves the field as it is. -/
def store (st : DecodeState) (f : Field) (v : Value) : DecodeState :=
  match v with
  | .null => st
  | .string s =>
    match f with
    | .SessionId => (st.1, { st.2 with SessionId := s })
    | .TokenId => (st.1, { st.2 with TokenId := s })
    | .AuthType => (st.1, { st.2 with AuthType := s })
    | .PasswordTag => (st.1, { st.2 with PasswordTag := s })
    | _ => saveError st .jsonUnmarshalType
  | .bool b =>
    match f with
    | .Authenticated => (st.1, { st.2 with Authenticated := b })
    | _ => saveError st .jsonUnmarshalType
  | .number raw =>
    match f with
    | .UserId =>
      match parseInt64 raw with
      | some n => (st.1, { st.2 with UserId := n })
      | none => saveError st .jsonUnmarshalType
    | .ExpAccess =>
      match parseInt64 raw with
      | some n => (st.1, { st.2 with ExpAccess := n })
      | none => saveError st .jsonUnmarshalType
    | .ExpRefresh =>
      match parseInt64 raw with
      | some n => (st.1, { st.2 with ExpRefresh := n })
      | none => saveError st .jsonUnmarshalType
    | _ => saveError st .jsonUnmarshalType
  | _ => saveError st .jsonUnmarshalType

/-- Decodes the members of an object in their order; a key that selects no
field is skipped. -/
def storeMembers : List (Bytes × Value) → DecodeState → DecodeState
  | [], st => st
  | (key, v) :: rest, st =>
    match fieldFor key with
    | some f => storeMembers rest (store st f v)
    | none => storeMembers rest st

/-- The error of `json.Unmarshal(data, token)` for a non-nil
`token *SessionToken` and the struct after the call: a `SyntaxError` leaves
the struct untouched, `null` decodes to nothing, any value but an object is
an `UnmarshalTypeError`, and an object is decoded member by member. -/
def Unmarshal (data : Bytes) (token : SessionToken) : DecodeState :=
  match parse data with
  | none => (some .jsonSyntax, token)
  | some .null => (none, token)
  | some (.object members) => storeMembers members (none, token)
  | some _ => (some .jsonUnmarshalType, token)

end json

/-! ## `Encode` (`token.go`, lines 37-61) -/

/-- Modelled from the spec: `base64Trim`, a helper of the package that is
not in the sources at hand; the spec says "trim trailing `=` padding
characters".  The result is a prefix of the argument (in the source, a
subslice that starts at the same index). -/
def base64Trim : Bytes → Bytes
  | [] => []
  | b :: rest =>
    match base64Trim rest with
    | [] => if b = base64.padChar then [] else [b]
    | r => b :: r

/-- Modelled from the spec: `base64Pad`, a helper of the package that is not
in the sources at hand; the spec says "append `=` characters to reach a valid
base-64 length", a multiple of four. -/
def base64Pad (src : Bytes) : Bytes :=
  src ++ List.replicate ((4 - src.length % 4) % 4) base64.padChar

/-- The constant `signatureLen` of `Encode` and `Decode`. -/
def signatureLen : Nat := 64

/-- The buffer after `copy(buf[lo:], data)` with the whole of `data` written;
`none` stands for the run-time panic of an index out of range. -/
def writeAt (buf : Bytes) (lo : Nat) (data : Bytes) : Option Bytes :=
  if lo + data.length ≤ buf.length then
    some (buf.take lo ++ data ++ buf.drop (lo + data.length))
  else none

/-- The contents of the slice `buf[lo:hi]`; `none` stands for the run-time
panic of slice bounds out of range. -/
def slice (buf : Bytes) (lo hi : Nat) : Option Bytes :=
  if lo ≤ hi ∧ hi ≤ buf.length then some ((buf.take hi).drop lo) else none

/-- The method `(*SessionToken).Encode`.  The outer `Option` is `none` when
an index or slice expression of the body is out of range; the inner result
is the pair `([]byte, error)` of the source. -/
def Encode (token : SessionToken) (securityKey : Bytes) : Option (Except GoError Bytes) :=
  match json.Marshal token with
  | .error err => some (.error err)
  | .ok jsonBytes => do
    let base64BytesLen := base64.EncodedLen jsonBytes.length
    let buf : Bytes := List.replicate (base64BytesLen + 1 + signatureLen) 0
    -- base64Bytes := buf[:base64BytesLen]; base64.URLEncoding.Encode(base64Bytes, jsonBytes)
    let _ ← slice buf 0 base64BytesLen
    let buf ← writeAt buf 0 (base64.encode jsonBytes)
    let base64Bytes ← slice buf 0 base64BytesLen
    let base64Bytes := base64Trim base64Bytes
    let base64BytesLen := base64Bytes.length
    -- buf[base64BytesLen] = '.'
    let buf ← writeAt buf base64BytesLen [46]
    -- hex.Encode(buf[base64BytesLen+1:], Hash.Sum(nil))
    let _ ← slice buf (base64BytesLen + 1) buf.length
    let buf ← writeAt buf (base64BytesLen + 1) (hex.encode (hmac.sum securityKey base64Bytes))
    let out ← slice buf 0 (base64BytesLen + 1 + signatureLen)
    pure (.ok out)

/-! ## `Decode` (`token.go`, lines 63-100) -/

/-- The variable `tokenBytesSplitSep`, the one-byte separator `.`. -/
def tokenBytesSplitSep : Byte := 46

/-- The subslices of `bytes.Split(s, sep)` for a separator of one byte: the
pieces of `s` between the occurrences of `sep`, one more piece than there are
occurrences. -/
def bytesSplit (s : Bytes) (sep : Byte) : List Bytes :=
  match s with
  | [] => [[]]
  | c :: rest =>
    if c = sep then [] :: bytesSplit rest sep
    else
      match bytesSplit rest sep with
      | seg :: segs => (c :: seg) :: segs
      | [] => [[c]]

/-- The destination after `copy(dst, src)`: the first `min(len(dst),
len(src))` bytes are overwritten. -/
def copyInto (dst src : Bytes) : Bytes :=
  src.take dst.length ++ dst.drop src.length

/-- What a call of `Decode` leaves behind: the returned error, the receiver
`*token` and the contents of the argument `tokenBytes`. -/
structure DecodeResult where
  err : Option GoError
  token : SessionToken
  tokenBytes : Bytes
deriving DecidableEq

/-- The method `(*SessionToken).Decode`, called on a non-nil receiver that
holds `token`.  The payload `bytesArray[0]` is a subslice of `tokenBytes`;
with the subslices of `bytes.Split` as they were before Go 1.10, whose
capacity reaches to the end of `tokenBytes`, the padding that `base64Pad`
appends lands on the bytes of `tokenBytes` that follow the payload (`padded`);
these are saved in `temp` before and copied back after (`restored`).  Since
Go 1.10 the subslices have no spare capacity and `tokenBytes` is not written
at all; the returned error and the receiver are the same either way. -/
def Decode (token : SessionToken) (tokenBytes securityKey : Bytes) : DecodeResult :=
  let bytesArray := bytesSplit tokenBytes tokenBytesSplitSep
  if bytesArray.length < 2 then
    ⟨some (.errorString "invalid token bytes"), token, tokenBytes⟩
  else if (bytesArray.getD 1 []).length ≠ signatureLen then
    ⟨some (.errorString "invalid token bytes, signature mismatch"), token, tokenBytes⟩
  else
    let payload := bytesArray.getD 0 []
    -- 验证签名
    let Signatrue := copyInto (List.replicate signatureLen 0)
      (hex.encode (hmac.sum securityKey payload))
    if Signatrue ≠ bytesArray.getD 1 [] then
      ⟨some (.errorString "invalid token bytes, signature mismatch"), token, tokenBytes⟩
    else
      -- 解码
      let temp := copyInto (Signatrue.take 4) (tokenBytes.drop payload.length)
      let base64Bytes := base64Pad payload
      let padded := tokenBytes.take payload.length
        ++ copyInto (tokenBytes.drop payload.length) (base64Bytes.drop payload.length)
      let (buf, err) := base64.decode base64Bytes
      let restored := padded.take payload.length ++ copyInto (padded.drop payload.length) temp
      match err with
      | some offset => ⟨some (.corruptInput offset), token, restored⟩
      | none =>
        let r := json.Unmarshal buf token
        ⟨r.1, r.2, restored⟩

/-! ## Vocabulary of the statements -/

/-- The payload of a token: the trimmed URL-safe base64 of the JSON bytes. -/
def payloadOf (jsonBytes : Bytes) : Bytes := base64Trim (base64.encode jsonBytes)

/-- The alphabet of `URLEncoding`: `A-Z`, `a-z`, `0-9`, `-` and `_`. -/
def isURLSafe (c : Byte) : Bool :=
  (decide (65 ≤ c.toNat) && decide (c.toNat ≤ 90)) || (decide (97 ≤ c.toNat) && decide (c.toNat ≤ 122))
    || (decide (48 ≤ c.toNat) && decide (c.toNat ≤ 57)) || c == 45 || c == 95

/-- The lower-case hexadecimal digits `0-9` and `a-f`. -/
def isLowerHex (c : Byte) : Bool :=
  (decide (48 ≤ c.toNat) && decide (c.toNat ≤ 57)) || (decide (97 ≤ c.toNat) && decide (c.toNat ≤ 102))

/-- The token of the scenario of the spec. -/
def scenarioToken : SessionToken :=
  { SessionId := lit "s1", TokenId := lit "t1", Authenticated := true, UserId := ⟨42, by decide⟩,
    AuthType := lit "email_password", PasswordTag := lit "p1",
    ExpAccess := ⟨1700000000, by decide⟩, ExpRefresh := ⟨1700100000, by decide⟩ }

/-- A receiver that holds the zero value of `SessionToken`. -/
def zeroToken : SessionToken :=
  { SessionId := [], TokenId := [], Authenticated := false, UserId := ⟨0, by decide⟩,
    AuthType := [], PasswordTag := [], ExpAccess := ⟨0, by decide⟩, ExpRefresh := ⟨0, by decide⟩ }

/-- The error of `Decode` for an input without separator. -/
def errMalformed : GoError := .errorString "invalid token bytes"

/-- The error of `Decode` for a signature of the wrong length and for a
signature that does not match (the source uses one text for both). -/
def errSignature : GoError := .errorString "invalid token bytes, signature mismatch"

/-- The string a Go string becomes when written as JSON and read back: every
byte that is not part of a valid UTF-8 encoding is replaced by `U+FFFD`. -/
def coerceUTF8 : Nat → Bytes → Bytes
  | _, [] => []
  | 0, _ :: _ => []
  | fuel + 1, b :: rest =>
    let d := utf8.DecodeRune (b :: rest)
    if d.1 = utf8.RuneError ∧ d.2 = 1 then 0xEF :: 0xBF :: 0xBD :: coerceUTF8 fuel rest
    else (b :: rest).take d.2 ++ coerceUTF8 fuel ((b :: rest).drop d.2)

/-- The token that comes back from the wire: the string fields with invalid
UTF-8 replaced, the other fields as they are. -/
def coerceToken (t : SessionToken) : SessionToken :=
  { t with
    SessionId := coerceUTF8 t.SessionId.length t.SessionId
    TokenId := coerceUTF8 t.TokenId.length t.TokenId
    AuthType := coerceUTF8 t.AuthType.length t.AuthType
    PasswordTag := coerceUTF8 t.PasswordTag.length t.PasswordTag }

/-- Whether the four string fields of a token are valid UTF-8. -/
def validStrings (t : SessionToken) : Bool :=
  utf8.Valid t.SessionId && utf8.Valid t.TokenId && utf8.Valid t.AuthType
    && utf8.Valid t.PasswordTag

/-- The bytes `json.Marshal` writes for a token, grouped member by member. -/
def marshalBytes (t : SessionToken) : Bytes :=
  123 :: (json.quote (lit "sid") ++ 58 :: (json.quote t.SessionId ++ 44 ::
    (json.quote (lit "token_id") ++ 58 :: (json.quote t.TokenId ++ 44 ::
    (json.quote (lit "authenticated") ++ 58 :: (json.boolLit t.Authenticated ++ 44 ::
    (json.quote (lit "user_id") ++ 58 :: (strconv.formatInt t.UserId ++ 44 ::
    (json.quote (lit "auth_type") ++ 58 :: (json.quote t.AuthType ++ 44 ::
    (json.quote (lit "password_tag") ++ 58 :: (json.quote t.PasswordTag ++ 44 ::
    (json.quote (lit "exp_access") ++ 58 :: (strconv.formatInt t.ExpAccess ++ 44 ::
    (json.quote (lit "exp_refresh") ++ 58 :: (strconv.formatInt t.ExpRefresh ++ [125]))))))))))))))))

deriving instance DecidableEq for Except

/-- The bytes `Encode` returns for the token of the scenario under the key
`secret`. -/
def scenarioWire : Bytes := lit
  "eyJzaWQiOiJzMSIsInRva2VuX2lkIjoidDEiLCJhdXRoZW50aWNhdGVkIjp0cnVlLCJ1c2VyX2lkIjo0MiwiYXV0aF90eXBlIjoiZW1haWxfcGFzc3dvcmQiLCJwYXNzd29yZF90YWciOiJwMSIsImV4cF9hY2Nlc3MiOjE3MDAwMDAwMDAsImV4cF9yZWZyZXNoIjoxNzAwMTAwMDAwfQ.d526dd39d5d0a46fb7274024e8bf446270dfa60297c0687d4e50908861e9f87c"

/-- The token of the scenario with a `SessionId` that is not valid UTF-8,
the single byte `0xff`. -/
def invalidUTF8Token : SessionToken := { scenarioToken with SessionId := [0xff] }

/-- The token of the scenario with an `AuthType` that is none of the seven
wire values. -/
def unknownAuthToken : SessionToken := { scenarioToken with AuthType := lit "foo" }

/-- The seven wire values of `AuthType`. -/
def authTypes : List Bytes :=
  [AuthTypeEmailPassword, AuthTypeEmailCaptcha, AuthTypePhonePassword, AuthTypePhoneCaptcha,
   AuthTypeOAuthQQ, AuthTypeOAuthWechat, AuthTypeOAuthWeibo]

/-- Whether `store` assigns a member value to a field without saving an
error: `null` for every field, a string for the four string fields, a boolean
for `Authenticated`, and a number that `strconv.ParseInt` reads as an `int64`
for the three integer fields. -/
def json.accepts (f : json.Field) (v : json.Value) : Bool :=
  match v with
  | .null => true
  | .string _ =>
    match f with
    | .SessionId | .TokenId | .AuthType | .PasswordTag => true
    | _ => false
  | .bool _ =>
    match f with
    | .Authenticated => true
    | _ => false
  | .number raw =>
    match f with
    | .UserId | .ExpAccess | .ExpRefresh => (json.parseInt64 raw).isSome
    | _ => false
  | _ => false

/-- Whether two tokens hold the same value in a field. -/
def sameField (f : json.Field) (a b : SessionToken) : Bool :=
  match f with
  | .SessionId => decide (a.SessionId = b.SessionId)
  | .TokenId => decide (a.TokenId = b.TokenId)
  | .Authenticated => decide (a.Authenticated = b.Authenticated)
  | .UserId => decide (a.UserId = b.UserId)
  | .AuthType => decide (a.AuthType = b.AuthType)
  | .PasswordTag => decide (a.PasswordTag = b.PasswordTag)
  | .ExpAccess => decide (a.ExpAccess = b.ExpAccess)
  | .ExpRefresh => decide (a.ExpRefresh = b.ExpRefresh)

/-! ## `getFromCache` (`model/cache.go`, lines 13-23) -/

namespace model

/-- A `memcache.Item`, as far as `getFromCache` reads it. -/
structure Item where
  Value : Bytes

/-- The function `getFromCache`.  What the sources at hand do not hold is
taken as a parameter: the type of errors with the two package variables
`memcache.ErrCacheMiss` and `ErrNotFound`, the type `User`, the answer `Get`
of the cache client for a key, the key `UserCacheKey` of a user, and
`json.Unmarshal` into a `User`.  The result is the returned error and the
record `*user` after the call. -/
def getFromCache {Error User : Type} [DecidableEq Error] (ErrCacheMiss ErrNotFound : Error)
    (Get : Bytes → Except Error Item) (UserCacheKey : Int64 → Bytes)
    (Unmarshal : Bytes → User → Option Error × User) (userId : Int64) (user : User) :
    Option Error × User :=
  match Get (UserCacheKey userId) with
  | .error err => if err = ErrCacheMiss then (some ErrNotFound, user) else (some err, user)
  | .ok item => Unmarshal item.Value user

end model

/-- The JSON object of a token with the four string members given as
literals: the eight members `sid`, `token_id`, `authenticated`, `user_id`,
`auth_type`, `password_tag`, `exp_access`, `exp_refresh` in this order, with
no white space. -/
def jsonObject (sid tokenId : Bytes) (authenticated : Bool) (userId : Int64)
    (authType passwordTag : Bytes) (expAccess expRefresh : Int64) : Bytes :=
  123 :: (json.quote (lit "sid") ++ 58 :: (sid ++ 44 ::
    (json.quote (lit "token_id") ++ 58 :: (tokenId ++ 44 ::
    (json.quote (lit "authenticated") ++ 58 :: (json.boolLit authenticated ++ 44 ::
    (json.quote (lit "user_id") ++ 58 :: (strconv.formatInt userId ++ 44 ::
    (json.quote (lit "auth_type") ++ 58 :: (authType ++ 44 ::
    (json.quote (lit "password_tag") ++ 58 :: (passwordTag ++ 44 ::
    (json.quote (lit "exp_access") ++ 58 :: (strconv.formatInt expAccess ++ 44 ::
    (json.quote (lit "exp_refresh") ++ 58 :: (strconv.formatInt expRefresh ++ [125]))))))))))))))))

/-- The bytes `q` are a JSON string literal for the Go string `s`: read as
JSON they are the string `s` with every byte that is not valid UTF-8 replaced
by `U+FFFD`, and when `s` is valid UTF-8 they are the literal `appendString`
writes. -/
def isLiteralOf (q s : Bytes) : Prop :=
  (∀ rest, json.parseValue 1 0 (q ++ rest) = some (.string (coerceUTF8 s.length s), rest))
    ∧ (utf8.Valid s = true → q = json.quote s)

/-- A call `Decode` makes into the standard library after the split, with its
arguments: `hmac.New(sha256.New, key)` with `Write(msg)` and `Sum(nil)`,
`hex.Encode`, `bytes.Equal`, `base64.URLEncoding.Decode`, `json.Unmarshal`. -/
inductive Event where
  | hmacSum (key msg : Bytes)
  | hexEncode (src : Bytes)
  | bytesEqual (a b : Bytes)
  | base64Decode (src : Bytes)
  | jsonUnmarshal (data : Bytes)
deriving DecidableEq

/-- The method `(*SessionToken).Decode` statement by statement as `Decode`
above, together with the calls it has made when it returns, in order.  The two
`return`s of lines 71 and 74 come before the first of these calls. -/
def DecodeTraced (token : SessionToken) (tokenBytes securityKey : Bytes) :
    DecodeResult × List Event :=
  let bytesArray := bytesSplit tokenBytes tokenBytesSplitSep
  if bytesArray.length < 2 then
    (⟨some (.errorString "invalid token bytes"), token, tokenBytes⟩, [])
  else if (bytesArray.getD 1 []).length ≠ signatureLen then
    (⟨some (.errorString "invalid token bytes, signature mismatch"), token, tokenBytes⟩, [])
  else
    let payload := bytesArray.getD 0 []
    -- 验证签名
    let sum := hmac.sum securityKey payload
    let trace := [Event.hmacSum securityKey payload]
    let Signatrue := copyInto (List.replicate signatureLen 0) (hex.encode sum)
    let trace := trace ++ [Event.hexEncode sum]
    let trace := trace ++ [Event.bytesEqual Signatrue (bytesArray.getD 1 [])]
    if Signatrue ≠ bytesArray.getD 1 [] then
      (⟨some (.errorString "invalid token bytes, signature mismatch"), token, tokenBytes⟩, trace)
    else
      -- 解码
      let temp := copyInto (Signatrue.take 4) (tokenBytes.drop payload.length)
      let base64Bytes := base64Pad payload
      let padded := tokenBytes.take payload.length
        ++ copyInto (tokenBytes.drop payload.length) (base64Bytes.drop payload.length)
      let (buf, err) := base64.decode base64Bytes
      let trace := trace ++ [Event.base64Decode base64Bytes]
      let restored := padded.take payload.length ++ copyInto (padded.drop payload.length) temp
      match err with
      | some offset => (⟨some (.corruptInput offset), token, restored⟩, trace)
      | none =>
        let r := json.Unmarshal buf token
        (⟨r.1, r.2, restored⟩, trace ++ [Event.jsonUnmarshal buf])

/-! # Theorems -/

theorem hex.encode_doubles (b : Bytes) : (hex.encode b).length = 2 * b.length := by
  induction b with
  | nil => rfl
  | cons v rest ih => simp [hex.encode, ih]; omega

theorem sha256.sum_size (msg : Bytes) : (sha256.sum msg).length = 32 := by
  simp [sha256.sum, sha256.digest, sha256.wordBytes]

theorem hmac.tag_size (key msg : Bytes) : (hmac.sum key msg).length = 32 := by
  simp [hmac.sum, sha256.sum_size]

theorem signature_length (key msg : Bytes) :
    (hex.encode (hmac.sum key msg)).length = 64 := by
  rw [hex.encode_doubles, hmac.tag_size]

theorem base64.encode_length (b : Bytes) :
    (base64.encode b).length = base64.EncodedLen b.length := by
  induction b using base64.encode.induct with
  | case1 b0 b1 b2 rest ih =>
    simp only [base64.encode, List.length_cons, ih, base64.EncodedLen]; omega
  | case2 b0 b1 => simp [base64.encode, base64.EncodedLen]
  | case3 b0 => simp [base64.encode, base64.EncodedLen]
  | case4 => simp [base64.encode, base64.EncodedLen]

theorem base64Trim_initial (b : Bytes) : ∃ q, b = base64Trim b ++ q := by
  induction b with
  | nil => exact ⟨[], rfl⟩
  | cons c rest ih =>
    obtain ⟨q, hq⟩ := ih
    simp only [base64Trim]
    split
    · rename_i h
      split
      · exact ⟨c :: rest, rfl⟩
      · refine ⟨rest, rfl⟩
    · rename_i r h
      exact ⟨q, by rw [List.cons_append, ← hq]⟩

theorem writeAt_mid (a b c data : Bytes) (h : data.length = b.length) :
    writeAt (a ++ b ++ c) a.length data = some (a ++ data ++ c) := by
  unfold writeAt
  rw [if_pos (by simp [h])]
  simp [List.take_append_eq_append_take, h]

theorem slice_zero_left (a c : Bytes) : slice (a ++ c) 0 a.length = some a := by
  simp [slice]

theorem Encode_eq (token : SessionToken) (securityKey jsonBytes : Bytes)
    (hj : json.Marshal token = .ok jsonBytes) :
    Encode token securityKey = some (.ok (payloadOf jsonBytes ++ [46]
      ++ hex.encode (hmac.sum securityKey (payloadOf jsonBytes)))) := by
  obtain ⟨q, hq⟩ := base64Trim_initial (base64.encode jsonBytes)
  have hlen := base64.encode_length jsonBytes
  set E := base64.encode jsonBytes with hE
  set P := base64Trim E with hP
  have hPl : P.length + q.length = base64.EncodedLen jsonBytes.length := by
    rw [← hlen, hq]; simp
  have hH := signature_length securityKey P
  set H := hex.encode (hmac.sum securityKey P) with hHd
  -- the buffer after each write
  have w1 : writeAt (List.replicate (base64.EncodedLen jsonBytes.length + 1 + signatureLen) 0)
      0 E = some (E ++ List.replicate 65 0) := by
    have := writeAt_mid [] (List.replicate (base64.EncodedLen jsonBytes.length) 0)
      (List.replicate 65 0) E (by simp [hlen])
    simpa [signatureLen, List.replicate_add, List.append_assoc] using this
  have s1 : slice (E ++ List.replicate 65 0) 0 (base64.EncodedLen jsonBytes.length) = some E := by
    rw [← hlen]; exact slice_zero_left _ _
  set X := q ++ List.replicate 65 (0 : Byte) with hX
  have hXl : X.length = q.length + 65 := by simp [hX]
  have hbuf1 : E ++ List.replicate 65 0 = P ++ X := by
    rw [hX, ← List.append_assoc, ← hq]
  have s0 : ∃ z, slice (List.replicate (base64.EncodedLen jsonBytes.length + 1 + signatureLen)
      (0 : Byte)) 0 (base64.EncodedLen jsonBytes.length) = some z := by
    simp [slice]; omega
  obtain ⟨z, hz⟩ := s0
  have w2 : writeAt (P ++ X) P.length [46] = some (P ++ [46] ++ X.drop 1) := by
    have := writeAt_mid P (X.take 1) (X.drop 1) [46] (by simp; omega)
    rwa [List.append_assoc, List.take_append_drop] at this
  have s2 : ∃ z, slice (P ++ [46] ++ X.drop 1) (P.length + 1) (P ++ [46] ++ X.drop 1).length
      = some z := by
    simp [slice]
  obtain ⟨z2, hz2⟩ := s2
  have w3 : writeAt (P ++ [46] ++ X.drop 1) (P.length + 1) H
      = some (P ++ [46] ++ H ++ (X.drop 1).drop 64) := by
    have := writeAt_mid (P ++ [46]) ((X.drop 1).take 64) ((X.drop 1).drop 64) H
      (by simp [hH]; omega)
    rw [List.append_assoc (P ++ [46]), List.take_append_drop] at this
    simpa using this
  have s3 : slice (P ++ [46] ++ H ++ (X.drop 1).drop 64) 0 (P.length + 1 + signatureLen)
      = some (P ++ [46] ++ H) := by
    have := slice_zero_left (P ++ [46] ++ H) ((X.drop 1).drop 64)
    simpa [hH, signatureLen] using this
  rw [hbuf1] at w1 s1
  simp only [Encode, hj, Option.bind_eq_bind, Option.some_bind, hz, w1, s1, w2, hz2, w3, s3,
    payloadOf, Option.pure_def, ← hE, ← hP, ← hHd]

theorem base64.enc_urlSafe (v : Nat) : isURLSafe (base64.enc v) = true := by
  have h : ∀ i : Fin 64, isURLSafe (base64.encodeURL.getD i.val 0) = true := by decide
  exact h ⟨v % 64, Nat.mod_lt _ (by decide)⟩

theorem hex.digit_lowerHex (v : Nat) (hv : v < 16) : isLowerHex (hex.hextable.getD v 0) = true := by
  have h : ∀ i : Fin 16, isLowerHex (hex.hextable.getD i.val 0) = true := by decide
  exact h ⟨v, hv⟩

theorem byte_lt (b : Byte) : b.toNat < 256 := UInt8.toNat_lt b

theorem hex.encode_lowerHex (b : Bytes) : ∀ c ∈ hex.encode b, isLowerHex c = true := by
  induction b with
  | nil => simp [hex.encode]
  | cons v rest ih =>
    intro c hc
    simp only [hex.encode, List.mem_cons] at hc
    have hv := byte_lt v
    rcases hc with rfl | rfl | hc
    · exact hex.digit_lowerHex _ (by omega)
    · exact hex.digit_lowerHex _ (by omega)
    · exact ih c hc

theorem not_urlSafe_dot : isURLSafe 46 = false := by decide
theorem not_urlSafe_pad : isURLSafe base64.padChar = false := by decide
theorem not_lowerHex_dot : isLowerHex 46 = false := by decide

theorem base64.encode_shape (x : Bytes) :
    ∃ body j, base64.encode x = body ++ List.replicate j base64.padChar ∧ j ≤ 2
      ∧ ∀ c ∈ body, isURLSafe c = true := by
  induction x using base64.encode.induct with
  | case1 b0 b1 b2 rest ih =>
    obtain ⟨body, j, h, hj, hb⟩ := ih
    refine ⟨base64.enc _ :: base64.enc _ :: base64.enc _ :: base64.enc _ :: body, j,
      by simp only [base64.encode, h, List.cons_append]; rfl, hj, ?_⟩
    intro c hc
    simp only [List.mem_cons] at hc
    rcases hc with rfl | rfl | rfl | rfl | hc
    · exact base64.enc_urlSafe _
    · exact base64.enc_urlSafe _
    · exact base64.enc_urlSafe _
    · exact base64.enc_urlSafe _
    · exact hb c hc
  | case2 b0 b1 =>
    refine ⟨[_, _, _], 1, by simp only [base64.encode]; rfl, by omega, ?_⟩
    intro c hc
    simp only [List.mem_cons, List.mem_singleton] at hc
    rcases hc with rfl | rfl | rfl | hc
    · exact base64.enc_urlSafe _
    · exact base64.enc_urlSafe _
    · exact base64.enc_urlSafe _
    · simp at hc
  | case3 b0 =>
    refine ⟨[_, _], 2, by simp only [base64.encode]; rfl, by omega, ?_⟩
    intro c hc
    simp only [List.mem_cons, List.mem_singleton] at hc
    rcases hc with rfl | rfl | hc
    · exact base64.enc_urlSafe _
    · exact base64.enc_urlSafe _
    · simp at hc
  | case4 => exact ⟨[], 0, rfl, by omega, by simp⟩

theorem base64Trim_replicate (j : Nat) : base64Trim (List.replicate j base64.padChar) = [] := by
  induction j with
  | zero => rfl
  | succ j ih => simp [List.replicate_succ, base64Trim, ih]

theorem base64Trim_body (body : Bytes) (j : Nat) (hb : ∀ c ∈ body, c ≠ base64.padChar) :
    base64Trim (body ++ List.replicate j base64.padChar) = body := by
  induction body with
  | nil => simpa using base64Trim_replicate j
  | cons c rest ih =>
    have hr := ih (fun c hc => hb c (List.mem_cons_of_mem _ hc))
    have hc : c ≠ base64.padChar := hb c (List.mem_cons_self _ _)
    rw [List.cons_append, base64Trim, hr]
    cases rest with
    | nil => simp [hc]
    | cons d rest => rfl

theorem urlSafe_ne_pad {c : Byte} (h : isURLSafe c = true) : c ≠ base64.padChar := by
  rintro rfl; simp [not_urlSafe_pad] at h

theorem urlSafe_ne_dot {c : Byte} (h : isURLSafe c = true) : c ≠ 46 := by
  rintro rfl; simp [not_urlSafe_dot] at h

/-- The payload is the alphabet part of the padded encoding. -/
theorem payloadOf_spec (x : Bytes) :
    ∃ j, base64.encode x = payloadOf x ++ List.replicate j base64.padChar ∧ j ≤ 2
      ∧ ∀ c ∈ payloadOf x, isURLSafe c = true := by
  obtain ⟨body, j, h, hj, hb⟩ := base64.encode_shape x
  have : payloadOf x = body := by
    rw [payloadOf, h]; exact base64Trim_body body j fun c hc => urlSafe_ne_pad (hb c hc)
  exact ⟨j, by rw [this]; exact h, hj, by rw [this]; exact hb⟩

theorem bytesSplit_ne_nil (s : Bytes) (sep : Byte) : bytesSplit s sep ≠ [] := by
  cases s with
  | nil => simp [bytesSplit]
  | cons c rest =>
    unfold bytesSplit
    split
    · simp
    · split <;> simp

theorem bytesSplit_no_sep (s : Bytes) (sep : Byte) (h : sep ∉ s) : bytesSplit s sep = [s] := by
  induction s with
  | nil => rfl
  | cons c rest ih =>
    have hc : c ≠ sep := fun e => h (e ▸ List.mem_cons_self _ _)
    have hr := ih fun m => h (List.mem_cons_of_mem _ m)
    rw [bytesSplit, if_neg hc, hr]

theorem bytesSplit_append (p s : Bytes) (sep : Byte) (h : sep ∉ p) :
    bytesSplit (p ++ sep :: s) sep = p :: bytesSplit s sep := by
  induction p with
  | nil => simp [bytesSplit]
  | cons c rest ih =>
    have hc : c ≠ sep := fun e => h (e ▸ List.mem_cons_self _ _)
    have hr := ih fun m => h (List.mem_cons_of_mem _ m)
    rw [List.cons_append, bytesSplit, if_neg hc, hr]

/-- Every input is its first piece, or its first piece, a separator and the
rest. -/
theorem bytesSplit_head (s : Bytes) (sep : Byte) :
    ∃ seg segs, bytesSplit s sep = seg :: segs ∧ sep ∉ seg ∧
      ((segs = [] ∧ s = seg) ∨ ∃ rest, s = seg ++ sep :: rest ∧ segs = bytesSplit rest sep) := by
  induction s with
  | nil => exact ⟨[], [], rfl, by simp, Or.inl ⟨rfl, rfl⟩⟩
  | cons c rest ih =>
    obtain ⟨seg, segs, h1, h2, h3⟩ := ih
    by_cases hc : c = sep
    · subst hc
      exact ⟨[], bytesSplit rest c, by simp [bytesSplit], by simp, Or.inr ⟨rest, rfl, rfl⟩⟩
    · refine ⟨c :: seg, segs, by rw [bytesSplit, if_neg hc, h1], ?_, ?_⟩
      · simp only [List.mem_cons, not_or]; exact ⟨fun e => hc e.symm, h2⟩
      · rcases h3 with ⟨rfl, rfl⟩ | ⟨r, rfl, rfl⟩
        · exact Or.inl ⟨rfl, rfl⟩
        · exact Or.inr ⟨r, rfl, rfl⟩

theorem Decode_no_sep (token : SessionToken) (tokenBytes securityKey : Bytes)
    (h : tokenBytesSplitSep ∉ tokenBytes) :
    Decode token tokenBytes securityKey = ⟨some errMalformed, token, tokenBytes⟩ := by
  simp [Decode, bytesSplit_no_sep _ _ h, errMalformed]

theorem Decode_bad_length (token : SessionToken) (tokenBytes securityKey p s : Bytes)
    (more : List Bytes) (h : bytesSplit tokenBytes tokenBytesSplitSep = p :: s :: more)
    (hl : s.length ≠ signatureLen) :
    Decode token tokenBytes securityKey = ⟨some errSignature, token, tokenBytes⟩ := by
  simp [Decode, h, hl, errSignature]

theorem copyInto_full (dst src : Bytes) (h : dst.length = src.length) : copyInto dst src = src := by
  simp [copyInto, h]

theorem Decode_bad_signature (token : SessionToken) (tokenBytes securityKey p s : Bytes)
    (more : List Bytes) (h : bytesSplit tokenBytes tokenBytesSplitSep = p :: s :: more)
    (hl : s.length = signatureLen) (hs : s ≠ hex.encode (hmac.sum securityKey p)) :
    Decode token tokenBytes securityKey = ⟨some errSignature, token, tokenBytes⟩ := by
  have hc : copyInto (List.replicate signatureLen 0) (hex.encode (hmac.sum securityKey p))
      = hex.encode (hmac.sum securityKey p) :=
    copyInto_full _ _ (by simp [signature_length, signatureLen])
  simp [Decode, h, hl, errSignature, hc, Ne.symm hs]


/-- Saving four bytes behind the payload, padding in place and copying the
saved bytes back leaves the buffer as it was. -/
theorem restore_eq (p d pad sig4 : Bytes) (hpad : pad.length ≤ 4) (hd : 4 ≤ d.length)
    (hs : sig4.length = 4) :
    ((p ++ d).take p.length ++ copyInto ((p ++ d).drop p.length) pad).take p.length
      ++ copyInto (((p ++ d).take p.length ++ copyInto ((p ++ d).drop p.length) pad).drop p.length)
          (copyInto sig4 ((p ++ d).drop p.length))
      = p ++ d := by
  have h1 : (p ++ d).take p.length = p := by simp
  have h2 : (p ++ d).drop p.length = d := by simp
  rw [h1, h2]
  have h3 : (p ++ copyInto d pad).take p.length = p := by simp
  have h4 : (p ++ copyInto d pad).drop p.length = copyInto d pad := by simp
  rw [h3, h4]
  congr 1
  have h5 : copyInto sig4 d = d.take 4 := by
    simp [copyInto, hs, List.drop_eq_nil_of_le (by omega : sig4.length ≤ d.length)]
  rw [h5]
  have hl : (copyInto d pad).length = d.length := by
    simp [copyInto]; omega
  have h6 : (copyInto d pad).drop 4 = d.drop 4 := by
    simp only [copyInto]
    rw [List.drop_append_eq_append_drop]
    simp [List.length_take, Nat.min_eq_left (by omega : pad.length ≤ d.length)]
    rw [List.drop_eq_nil_of_le (by simp; omega), List.nil_append]
    congr 1; omega
  have h7 : copyInto (copyInto d pad) (d.take 4) = d.take 4 ++ (copyInto d pad).drop 4 := by
    simp only [copyInto]
    rw [List.take_of_length_le (by simp [hl]; omega)]
    simp [Nat.min_eq_left hd]
  rw [h7, h6, List.take_append_drop]

theorem base64Pad_drop (p : Bytes) :
    (base64Pad p).drop p.length = List.replicate ((4 - p.length % 4) % 4) base64.padChar := by
  simp [base64Pad]

/-- The first two pieces of an input that has at least two. -/
theorem bytesSplit_two (tokenBytes p s : Bytes) (more : List Bytes) (sep : Byte)
    (h : bytesSplit tokenBytes sep = p :: s :: more) :
    ∃ rest, tokenBytes = p ++ sep :: rest ∧ s.length ≤ rest.length := by
  obtain ⟨seg, segs, h1, h2, h3⟩ := bytesSplit_head tokenBytes sep
  rw [h1] at h
  obtain ⟨rfl, rfl⟩ := List.cons.inj h
  rcases h3 with ⟨h3, -⟩ | ⟨rest, rfl, h3⟩
  · simp at h3
  · refine ⟨rest, rfl, ?_⟩
    obtain ⟨seg2, segs2, g1, g2, g3⟩ := bytesSplit_head rest sep
    rw [g1] at h3
    obtain ⟨rfl, rfl⟩ := List.cons.inj h3
    rcases g3 with ⟨-, rfl⟩ | ⟨r, rfl, -⟩
    · exact le_rfl
    · simp

/-- The result of `Decode` once the signature has been accepted. -/
theorem Decode_signed (token : SessionToken) (tokenBytes securityKey p : Bytes)
    (more : List Bytes)
    (h : bytesSplit tokenBytes tokenBytesSplitSep
      = p :: hex.encode (hmac.sum securityKey p) :: more) :
    Decode token tokenBytes securityKey =
      match (base64.decode (base64Pad p)).2 with
      | some offset => ⟨some (.corruptInput offset), token, tokenBytes⟩
      | none =>
        ⟨(json.Unmarshal (base64.decode (base64Pad p)).1 token).1,
         (json.Unmarshal (base64.decode (base64Pad p)).1 token).2, tokenBytes⟩ := by
  have hc : copyInto (List.replicate signatureLen 0) (hex.encode (hmac.sum securityKey p))
      = hex.encode (hmac.sum securityKey p) :=
    copyInto_full _ _ (by simp [signature_length, signatureLen])
  obtain ⟨rest, hrest, hlen⟩ := bytesSplit_two _ _ _ _ _ h
  rw [signature_length] at hlen
  have hr := restore_eq p (tokenBytesSplitSep :: rest)
    (List.replicate ((4 - p.length % 4) % 4) base64.padChar)
    ((hex.encode (hmac.sum securityKey p)).take 4) (by simp; omega) (by simp; omega)
    (by simp [signature_length])
  rw [← hrest, ← base64Pad_drop] at hr
  have hlen2 : ¬ (p :: hex.encode (hmac.sum securityKey p) :: more).length < 2 := by simp
  have hsl : ¬ (hex.encode (hmac.sum securityKey p)).length ≠ signatureLen := by
    simp [signature_length, signatureLen]
  simp only [Decode, h, List.getD_cons_zero, List.getD_cons_succ, hc, if_neg hlen2, if_neg hsl,
    ne_eq, not_true_eq_false, if_false, hr]

theorem toNat_ofNat (n : Nat) : (UInt8.ofNat n).toNat = n % 256 := rfl

theorem ofNat_eq (n : Nat) (b : Byte) (h : n % 256 = b.toNat) : UInt8.ofNat n = b := by
  apply UInt8.ext
  rw [toNat_ofNat, h]

theorem base64.decodeMap_enc (v : Nat) : base64.decodeMap (base64.enc v) = v % 64 := by
  have h : ∀ i : Fin 64, base64.decodeMap (base64.encodeURL.getD i.val 0) = i.val := by decide
  exact h ⟨v % 64, Nat.mod_lt _ (by decide)⟩

theorem base64.enc_ne_newline (v : Nat) : ¬ (base64.enc v = 10 ∨ base64.enc v = 13) := by
  have h : ∀ i : Fin 64, ¬ (base64.encodeURL.getD i.val 0 = 10 ∨ base64.encodeURL.getD i.val 0 = 13) := by
    decide
  exact h ⟨v % 64, Nat.mod_lt _ (by decide)⟩

theorem base64.decodeQuantum_enc (srcLen si : Nat) (dbuf : List Nat) (v : Nat) (rest : Bytes)
    (h : dbuf.length ≠ 3) :
    base64.decodeQuantum srcLen (base64.enc v :: rest) si dbuf
      = base64.decodeQuantum srcLen rest (si + 1) (dbuf ++ [v % 64]) := by
  rw [base64.decodeQuantum]
  simp only [base64.decodeMap_enc]
  rw [if_pos (by have := Nat.mod_lt v (by decide : 0 < 64); omega), if_neg h]

theorem base64.decodeQuantum_enc_last (srcLen si : Nat) (dbuf : List Nat) (v : Nat) (rest : Bytes)
    (h : dbuf.length = 3) :
    base64.decodeQuantum srcLen (base64.enc v :: rest) si dbuf
      = ⟨rest, si + 1, base64.quantumBytes (dbuf ++ [v % 64]) 4, none⟩ := by
  rw [base64.decodeQuantum]
  simp only [base64.decodeMap_enc]
  rw [if_pos (by have := Nat.mod_lt v (by decide : 0 < 64); omega), if_pos h]

theorem base64.quantum_full (srcLen si : Nat) (b0 b1 b2 : Byte) (rest : Bytes) :
    base64.decodeQuantum srcLen
      (base64.enc ((b0.toNat * 65536 + b1.toNat * 256 + b2.toNat) / 262144)
        :: base64.enc ((b0.toNat * 65536 + b1.toNat * 256 + b2.toNat) / 4096)
        :: base64.enc ((b0.toNat * 65536 + b1.toNat * 256 + b2.toNat) / 64)
        :: base64.enc (b0.toNat * 65536 + b1.toNat * 256 + b2.toNat) :: rest) si []
      = ⟨rest, si + 4, [b0, b1, b2], none⟩ := by
  have h0 := byte_lt b0
  have h1 := byte_lt b1
  have h2 := byte_lt b2
  rw [base64.decodeQuantum_enc _ _ _ _ _ (by simp), base64.decodeQuantum_enc _ _ _ _ _ (by simp),
    base64.decodeQuantum_enc _ _ _ _ _ (by simp), base64.decodeQuantum_enc_last _ _ _ _ _ (by simp)]
  simp only [base64.quantumBytes, List.nil_append, List.cons_append, List.getD_cons_zero,
    List.getD_cons_succ, Nat.add_one_sub_one, List.take_succ_cons, List.take_zero]
  congr 1
  simp only [List.cons.injEq, and_true]
  refine ⟨ofNat_eq _ _ ?_, ofNat_eq _ _ ?_, ofNat_eq _ _ ?_⟩ <;> omega

theorem base64.decodeMap_pad : base64.decodeMap base64.padChar = 0xff := by decide

theorem base64.quantum_two (srcLen si : Nat) (b0 b1 : Byte) :
    base64.decodeQuantum srcLen
      [base64.enc ((b0.toNat * 65536 + b1.toNat * 256) / 262144),
       base64.enc ((b0.toNat * 65536 + b1.toNat * 256) / 4096),
       base64.enc ((b0.toNat * 65536 + b1.toNat * 256) / 64), base64.padChar] si []
      = ⟨[], si + 4, [b0, b1], none⟩ := by
  have h0 := byte_lt b0
  have h1 := byte_lt b1
  rw [base64.decodeQuantum_enc _ _ _ _ _ (by simp), base64.decodeQuantum_enc _ _ _ _ _ (by simp),
    base64.decodeQuantum_enc _ _ _ _ _ (by simp)]
  rw [base64.decodeQuantum]
  simp only [base64.decodeMap_pad, ne_eq, not_true_eq_false, if_false]
  rw [if_neg (by decide), if_neg (by simp)]
  simp only [List.nil_append, List.cons_append, List.length_cons, List.length_nil,
    base64.skipNewlines, base64.quantumBytes, List.getD_cons_zero, List.getD_cons_succ]
  simp only [show ¬ (0 + 1 + 1 + 1 < 2) by omega, show ¬ (0 + 1 + 1 + 1 = 2) by omega, if_false]
  congr 1
  show [UInt8.ofNat _, UInt8.ofNat _] = _
  simp only [List.cons.injEq, and_true]
  refine ⟨ofNat_eq _ _ ?_, ofNat_eq _ _ ?_⟩ <;> simp <;> omega

theorem base64.quantum_one (srcLen si : Nat) (b0 : Byte) :
    base64.decodeQuantum srcLen
      [base64.enc ((b0.toNat * 65536) / 262144), base64.enc ((b0.toNat * 65536) / 4096),
       base64.padChar, base64.padChar] si []
      = ⟨[], si + 4, [b0], none⟩ := by
  have h0 := byte_lt b0
  rw [base64.decodeQuantum_enc _ _ _ _ _ (by simp), base64.decodeQuantum_enc _ _ _ _ _ (by simp)]
  rw [base64.decodeQuantum]
  simp only [base64.decodeMap_pad, ne_eq, not_true_eq_false, if_false]
  rw [if_neg (by decide), if_neg (by simp)]
  simp only [List.nil_append, List.cons_append, List.length_cons, List.length_nil]
  simp only [show ¬ (0 + 1 + 1 < 2) by omega, if_false, if_true]
  have hs : base64.skipNewlines [base64.padChar] (si + 1 + 1 + 1) = ([base64.padChar], si + 1 + 1 + 1) := by
    simp [base64.skipNewlines]; decide
  rw [hs]
  simp only [ne_eq, not_true_eq_false, if_false, base64.skipNewlines, base64.quantumBytes,
    List.getD_cons_zero, List.getD_cons_succ]
  congr 1
  show [UInt8.ofNat _] = _
  simp only [List.cons.injEq, and_true]
  refine ofNat_eq _ _ ?_
  simp; omega

theorem base64.decodeLoop_nil (srcLen fuel si : Nat) (acc : Bytes) :
    base64.decodeLoop srcLen fuel [] si acc = (acc, none) := by
  cases fuel <;> rfl

theorem base64.decodeLoop_cons (srcLen fuel si : Nat) (c : Byte) (r acc : Bytes) :
    base64.decodeLoop srcLen (fuel + 1) (c :: r) si acc =
      match (base64.decodeQuantum srcLen (c :: r) si []).err with
      | some e => (acc ++ (base64.decodeQuantum srcLen (c :: r) si []).out, some e)
      | none =>
        base64.decodeLoop srcLen fuel (base64.decodeQuantum srcLen (c :: r) si []).rest
          (base64.decodeQuantum srcLen (c :: r) si []).si
          (acc ++ (base64.decodeQuantum srcLen (c :: r) si []).out) := rfl

theorem base64.decodeLoop_encode (srcLen : Nat) (x : Bytes) :
    ∀ (fuel si : Nat) (acc : Bytes), (base64.encode x).length ≤ fuel →
      base64.decodeLoop srcLen fuel (base64.encode x) si acc = (acc ++ x, none) := by
  induction x using base64.encode.induct with
  | case1 b0 b1 b2 rest ih =>
    intro fuel si acc hf
    simp only [base64.encode, List.length_cons] at hf ⊢
    obtain ⟨f, rfl⟩ : ∃ f, fuel = f + 1 := ⟨fuel - 1, by omega⟩
    rw [base64.decodeLoop_cons]
    simp only [base64.quantum_full]
    rw [ih f (si + 4) _ (by omega)]
    simp
  | case2 b0 b1 =>
    intro fuel si acc hf
    simp only [base64.encode, List.length_cons] at hf ⊢
    obtain ⟨f, rfl⟩ : ∃ f, fuel = f + 1 := ⟨fuel - 1, by omega⟩
    rw [base64.decodeLoop_cons]
    simp only [base64.quantum_two, base64.decodeLoop_nil]
  | case3 b0 =>
    intro fuel si acc hf
    simp only [base64.encode, List.length_cons] at hf ⊢
    obtain ⟨f, rfl⟩ : ∃ f, fuel = f + 1 := ⟨fuel - 1, by omega⟩
    rw [base64.decodeLoop_cons]
    simp only [base64.quantum_one, base64.decodeLoop_nil]
  | case4 =>
    intro fuel si acc _
    simp [base64.encode, base64.decodeLoop_nil]

/-- Decoding the padded encoding gives the bytes back. -/
theorem base64.decode_encode (x : Bytes) : base64.decode (base64.encode x) = (x, none) := by
  simpa using base64.decodeLoop_encode (base64.encode x).length x (base64.encode x).length 0 []
    le_rfl

/-- Padding the payload gives the padded encoding back. -/
theorem base64Pad_payloadOf (x : Bytes) : base64Pad (payloadOf x) = base64.encode x := by
  obtain ⟨j, h, hj, -⟩ := payloadOf_spec x
  have hl := base64.encode_length x
  rw [h, List.length_append, List.length_replicate, base64.EncodedLen] at hl
  rw [base64Pad, h]
  congr 2
  omega

theorem utf8.DecodeRune_ascii (b : Byte) (rest : Bytes) (h : b.toNat < 0x80) :
    utf8.DecodeRune (b :: rest) = (b.toNat, 1) := by
  simp [utf8.DecodeRune, h]

/-- The five outcomes of `DecodeRune` on a non-empty input. -/
theorem utf8.DecodeRune_class (b : Byte) (rest : Bytes) :
    utf8.DecodeRune (b :: rest) = (utf8.RuneError, 1)
    ∨ (b.toNat < 0x80 ∧ utf8.DecodeRune (b :: rest) = (b.toNat, 1))
    ∨ (∃ b1 r, rest = b1 :: r ∧ 0xC2 ≤ b.toNat ∧ b.toNat < 0xE0 ∧ 0x80 ≤ b1.toNat ∧ b1.toNat ≤ 0xBF
        ∧ utf8.DecodeRune (b :: rest) = ((b.toNat - 0xC0) * 64 + (b1.toNat - 0x80), 2))
    ∨ (∃ b1 b2 r, rest = b1 :: b2 :: r ∧ 0xE0 ≤ b.toNat ∧ b.toNat < 0xF0
        ∧ (if b.toNat = 0xE0 then 0xA0 else 0x80) ≤ b1.toNat
        ∧ b1.toNat ≤ (if b.toNat = 0xED then 0x9F else 0xBF)
        ∧ 0x80 ≤ b2.toNat ∧ b2.toNat ≤ 0xBF
        ∧ utf8.DecodeRune (b :: rest)
          = ((b.toNat - 0xE0) * 4096 + (b1.toNat - 0x80) * 64 + (b2.toNat - 0x80), 3))
    ∨ (∃ b1 b2 b3 r, rest = b1 :: b2 :: b3 :: r ∧ 0xF0 ≤ b.toNat ∧ b.toNat < 0xF5
        ∧ (if b.toNat = 0xF0 then 0x90 else 0x80) ≤ b1.toNat
        ∧ b1.toNat ≤ (if b.toNat = 0xF4 then 0x8F else 0xBF)
        ∧ 0x80 ≤ b2.toNat ∧ b2.toNat ≤ 0xBF ∧ 0x80 ≤ b3.toNat ∧ b3.toNat ≤ 0xBF
        ∧ utf8.DecodeRune (b :: rest)
          = ((b.toNat - 0xF0) * 262144 + (b1.toNat - 0x80) * 4096 + (b2.toNat - 0x80) * 64
              + (b3.toNat - 0x80), 4)) := by
  simp only [utf8.DecodeRune]
  by_cases h1 : b.toNat < 0x80
  · right; left; exact ⟨h1, by rw [if_pos h1]⟩
  rw [if_neg h1]
  by_cases h2 : b.toNat < 0xC2
  · left; rw [if_pos h2]
  rw [if_neg h2]
  by_cases h3 : b.toNat < 0xE0
  · rw [if_pos h3]
    rcases rest with _ | ⟨b1, r⟩
    · left; rfl
    · by_cases hr : utf8.inRange b1 0x80 0xBF = true
      · right; right; left
        have hr2 := hr
        simp only [utf8.inRange, Bool.and_eq_true, decide_eq_true_eq] at hr2
        refine ⟨b1, r, rfl, by omega, h3, hr2.1, hr2.2, ?_⟩
        simp only [hr, if_true]
      · left; simp only [hr]; rfl
  rw [if_neg h3]
  by_cases h4 : b.toNat < 0xF0
  · rw [if_pos h4]
    rcases rest with _ | ⟨b1, _ | ⟨b2, r⟩⟩
    · left; rfl
    · left; rfl
    · by_cases hr : (utf8.inRange b1 (if b.toNat = 0xE0 then 0xA0 else 0x80)
          (if b.toNat = 0xED then 0x9F else 0xBF) && utf8.inRange b2 0x80 0xBF) = true
      · right; right; right; left
        have hr2 := hr
        simp only [utf8.inRange, Bool.and_eq_true, decide_eq_true_eq] at hr2
        refine ⟨b1, b2, r, rfl, by omega, h4, hr2.1.1, hr2.1.2, hr2.2.1, hr2.2.2, ?_⟩
        simp only [hr, if_true]
      · left; simp only [hr]; rfl
  rw [if_neg h4]
  by_cases h5 : b.toNat < 0xF5
  · rw [if_pos h5]
    rcases rest with _ | ⟨b1, _ | ⟨b2, _ | ⟨b3, r⟩⟩⟩
    · left; rfl
    · left; rfl
    · left; rfl
    · by_cases hr : (utf8.inRange b1 (if b.toNat = 0xF0 then 0x90 else 0x80)
          (if b.toNat = 0xF4 then 0x8F else 0xBF) && utf8.inRange b2 0x80 0xBF
          && utf8.inRange b3 0x80 0xBF) = true
      · right; right; right; right
        have hr2 := hr
        simp only [utf8.inRange, Bool.and_eq_true, decide_eq_true_eq] at hr2
        refine ⟨b1, b2, b3, r, rfl, by omega, h5, hr2.1.1.1, hr2.1.1.2, hr2.1.2.1, hr2.1.2.2,
          hr2.2.1, hr2.2.2, ?_⟩
        simp only [hr, if_true]
      · left; simp only [hr]; rfl
  · left; rw [if_neg h5]

/-- A valid encoding at the start of the input is decoded from its own bytes
alone and is what `EncodeRune` writes for the rune. -/
theorem utf8.DecodeRune_valid (b : Byte) (rest : Bytes)
    (hv : ¬ ((utf8.DecodeRune (b :: rest)).1 = utf8.RuneError ∧ (utf8.DecodeRune (b :: rest)).2 = 1)) :
    ∃ pre : Bytes, (b :: rest).take (utf8.DecodeRune (b :: rest)).2 = b :: pre
      ∧ (b :: rest).drop (utf8.DecodeRune (b :: rest)).2 = rest.drop pre.length
      ∧ (utf8.DecodeRune (b :: rest)).2 = pre.length + 1
      ∧ pre.length ≤ rest.length
      ∧ utf8.EncodeRune (utf8.DecodeRune (b :: rest)).1 = b :: pre
      ∧ ∀ t, utf8.DecodeRune (b :: pre ++ t) = utf8.DecodeRune (b :: rest) := by
  have hb := byte_lt b
  rcases utf8.DecodeRune_class b rest with h | ⟨h1, h⟩ | ⟨b1, r, rfl, h1, h2, h3, h4, h⟩
    | ⟨b1, b2, r, rfl, h1, h2, h3, h4, h5, h6, h⟩
    | ⟨b1, b2, b3, r, rfl, h1, h2, h3, h4, h5, h6, h7, h8, h⟩
  · rw [h] at hv; simp at hv
  · rw [h]
    refine ⟨[], by simp, by simp, by simp, by simp, ?_, ?_⟩
    · simp only [utf8.EncodeRune, if_pos h1]
      rw [ofNat_eq _ b (by omega)]
    · intro t; simp [utf8.DecodeRune, h1]
  · rw [h]
    have hb1 := byte_lt b1
    refine ⟨[b1], by simp, by simp, by simp, by simp, ?_, ?_⟩
    · simp only [utf8.EncodeRune]
      rw [if_neg (by omega), if_pos (by omega), ofNat_eq _ b (by omega), ofNat_eq _ b1 (by omega)]
    · intro t
      simp only [utf8.DecodeRune, List.cons_append, List.nil_append, utf8.inRange]
      rw [if_neg (by omega), if_neg (by omega), if_pos h2]
      simp [h3, h4]
  · rw [h]
    have hb1 := byte_lt b1
    have hb2 := byte_lt b2
    refine ⟨[b1, b2], by simp, by simp, by simp, by simp, ?_, ?_⟩
    · simp only [utf8.EncodeRune]
      split_ifs at h3 h4 <;>
      · rw [if_neg (by omega), if_neg (by omega), if_neg (by omega), if_pos (by omega),
          ofNat_eq _ b (by omega), ofNat_eq _ b1 (by omega), ofNat_eq _ b2 (by omega)]
    · intro t
      simp only [utf8.DecodeRune, List.cons_append, List.nil_append, utf8.inRange]
      rw [if_neg (by omega), if_neg (by omega), if_neg (by omega), if_pos h2]
      simp [h3, h4, h5, h6]
  · rw [h]
    have hb1 := byte_lt b1
    have hb2 := byte_lt b2
    have hb3 := byte_lt b3
    refine ⟨[b1, b2, b3], by simp, by simp, by simp, by simp, ?_, ?_⟩
    · simp only [utf8.EncodeRune]
      split_ifs at h3 h4 <;>
      · rw [if_neg (by omega), if_neg (by omega), if_neg (by omega), if_neg (by omega),
          ofNat_eq _ b (by omega), ofNat_eq _ b1 (by omega), ofNat_eq _ b2 (by omega),
          ofNat_eq _ b3 (by omega)]
    · intro t
      simp only [utf8.DecodeRune, List.cons_append, List.nil_append, utf8.inRange]
      rw [if_neg (by omega), if_neg (by omega), if_neg (by omega), if_neg (by omega), if_pos h2]
      simp [h3, h4, h5, h6, h7, h8]

theorem json.unquote_quote (g : Nat) (rest acc : Bytes) :
    json.unquote (g + 1) (34 :: rest) acc = some (acc, rest) := by
  simp [json.unquote]

theorem json.unquote_plain (g : Nat) (c : Byte) (rest acc : Bytes) (h1 : c ≠ 34) (h2 : c ≠ 92)
    (h3 : 0x20 ≤ c.toNat) (h4 : c.toNat < 0x80) :
    json.unquote (g + 1) (c :: rest) acc = json.unquote g rest (acc ++ [c]) := by
  simp only [json.unquote, if_neg h1, if_neg h2, if_neg (show ¬ c.toNat < 0x20 by omega), if_pos h4]

theorem json.unquote_rune (g : Nat) (c : Byte) (rest acc : Bytes) (h : 0x80 ≤ c.toNat) :
    json.unquote (g + 1) (c :: rest) acc
      = json.unquote g ((c :: rest).drop (utf8.DecodeRune (c :: rest)).2)
          (acc ++ utf8.EncodeRune (utf8.DecodeRune (c :: rest)).1) := by
  have h1 : c ≠ 34 := by rintro rfl; revert h; decide
  have h2 : c ≠ 92 := by rintro rfl; revert h; decide
  simp only [json.unquote, if_neg h1, if_neg h2, if_neg (show ¬ c.toNat < 0x20 by omega),
    if_neg (show ¬ c.toNat < 0x80 by omega)]

theorem json.unquote_escaped (g : Nat) (e : Byte) (rest acc : Bytes) (h : e = 34 ∨ e = 92) :
    json.unquote (g + 1) (92 :: e :: rest) acc = json.unquote g rest (acc ++ [e]) := by
  have : e = 34 ∨ e = 92 ∨ e = 47 := by tauto
  simp only [json.unquote, if_pos this]
  simp

theorem json.unquote_control (g : Nat) (rest acc : Bytes) :
    json.unquote (g + 1) (92 :: 98 :: rest) acc = json.unquote g rest (acc ++ [8])
    ∧ json.unquote (g + 1) (92 :: 102 :: rest) acc = json.unquote g rest (acc ++ [12])
    ∧ json.unquote (g + 1) (92 :: 110 :: rest) acc = json.unquote g rest (acc ++ [10])
    ∧ json.unquote (g + 1) (92 :: 114 :: rest) acc = json.unquote g rest (acc ++ [13])
    ∧ json.unquote (g + 1) (92 :: 116 :: rest) acc = json.unquote g rest (acc ++ [9]) := by
  refine ⟨?_, ?_, ?_, ?_, ?_⟩ <;> simp [json.unquote]

theorem json.unquote_u (g : Nat) (h1 h2 h3 h4 : Byte) (rest acc : Bytes) (rr : Nat)
    (hu : json.getu4 (92 :: 117 :: h1 :: h2 :: h3 :: h4 :: rest) = some rr)
    (hs : ¬ (0xD800 ≤ rr ∧ rr < 0xE000)) :
    json.unquote (g + 1) (92 :: 117 :: h1 :: h2 :: h3 :: h4 :: rest) acc
      = json.unquote g rest (acc ++ utf8.EncodeRune rr) := by
  simp only [json.unquote, hu, if_neg hs]
  simp

theorem json.hexVal_hexDigit (v : Nat) : json.hexVal (json.hexDigit v) = some (v % 16) := by
  have h : ∀ i : Fin 16, json.hexVal (hex.hextable.getD i.val 0) = some i.val := by decide
  exact h ⟨v % 16, Nat.mod_lt _ (by decide)⟩

theorem json.getu4_00 (b : Byte) (rest : Bytes) (hb : b.toNat < 0x80) :
    json.getu4 (92 :: 117 :: 48 :: 48 :: json.hexDigit (b.toNat / 16) :: json.hexDigit b.toNat :: rest)
      = some b.toNat := by
  simp only [json.getu4, json.hexVal_hexDigit]
  have h0 : json.hexVal 48 = some 0 := by decide
  simp only [h0, and_self, if_true]
  congr 1
  omega

theorem json.unquote_escape : ∀ (fuel : Nat) (s : Bytes) (g : Nat) (acc R : Bytes),
    s.length ≤ fuel → (json.escape fuel s).length < g →
    json.unquote g (json.escape fuel s ++ 34 :: R) acc = some (acc ++ coerceUTF8 fuel s, R) := by
  intro fuel
  induction fuel with
  | zero =>
    intro s g acc R hs hg
    obtain rfl : s = [] := List.eq_nil_of_length_eq_zero (by omega)
    obtain ⟨g, rfl⟩ : ∃ g', g = g' + 1 := ⟨g - 1, by omega⟩
    simp [json.escape, coerceUTF8, json.unquote_quote]
  | succ fuel ih =>
    intro s g acc R hs hg
    obtain ⟨g, rfl⟩ : ∃ g', g = g' + 1 := ⟨g - 1, by omega⟩
    cases s with
    | nil => simp [json.escape, coerceUTF8, json.unquote_quote]
    | cons b rest =>
      have hr : rest.length ≤ fuel := by simpa using hs
      have hb := byte_lt b
      by_cases hascii : b.toNat < 0x80
      · have hco : coerceUTF8 (fuel + 1) (b :: rest) = b :: coerceUTF8 fuel rest := by
          simp only [coerceUTF8, utf8.DecodeRune_ascii b rest hascii]
          rw [if_neg (by simp [utf8.RuneError]; omega)]
          simp
        rw [hco]
        simp only [json.escape, if_pos hascii] at hg ⊢
        by_cases hsafe : json.htmlSafeSet b = true
        · simp only [hsafe, if_true, List.cons_append, List.length_cons] at hg ⊢
          have hs2 := hsafe
          simp only [json.htmlSafeSet, Bool.and_eq_true, decide_eq_true_eq, bne_iff_ne, ne_eq] at hs2
          rw [json.unquote_plain g b _ acc hs2.1.1.1.1.2 hs2.2 hs2.1.1.1.1.1.1 hascii,
            ih rest g _ R hr (by omega)]
          simp
        · simp only [hsafe, Bool.false_eq_true, if_false] at hg ⊢
          by_cases h1 : b = 92 ∨ b = 34
          · simp only [if_pos h1, List.cons_append, List.length_cons] at hg ⊢
            rw [json.unquote_escaped g b _ acc (by tauto), ih rest g _ R hr (by omega)]
            simp
          · simp only [if_neg h1] at hg ⊢
            by_cases h2 : b = 8
            · subst h2
              simp only [if_true, List.cons_append, List.length_cons] at hg ⊢
              rw [(json.unquote_control g _ acc).1, ih rest g _ R hr (by omega)]
              simp
            · simp only [if_neg h2] at hg ⊢
              by_cases h3 : b = 12
              · subst h3
                simp only [if_true, List.cons_append, List.length_cons] at hg ⊢
                rw [(json.unquote_control g _ acc).2.1, ih rest g _ R hr (by omega)]
                simp
              · simp only [if_neg h3] at hg ⊢
                by_cases h4 : b = 10
                · subst h4
                  simp only [if_true, List.cons_append, List.length_cons] at hg ⊢
                  rw [(json.unquote_control g _ acc).2.2.1, ih rest g _ R hr (by omega)]
                  simp
                · simp only [if_neg h4] at hg ⊢
                  by_cases h5 : b = 13
                  · subst h5
                    simp only [if_true, List.cons_append, List.length_cons] at hg ⊢
                    rw [(json.unquote_control g _ acc).2.2.2.1, ih rest g _ R hr (by omega)]
                    simp
                  · simp only [if_neg h5] at hg ⊢
                    by_cases h6 : b = 9
                    · subst h6
                      simp only [if_true, List.cons_append, List.length_cons] at hg ⊢
                      rw [(json.unquote_control g _ acc).2.2.2.2, ih rest g _ R hr (by omega)]
                      simp
                    · simp only [if_neg h6, List.cons_append, List.length_cons] at hg ⊢
                      rw [json.unquote_u g _ _ _ _ _ acc b.toNat (json.getu4_00 b _ hascii)
                        (by omega), ih rest g _ R hr (by omega)]
                      simp only [utf8.EncodeRune, if_pos hascii]
                      rw [ofNat_eq _ b (by omega)]
                      simp
      · have hge : 0x80 ≤ b.toNat := by omega
        simp only [json.escape, if_neg hascii, coerceUTF8] at hg ⊢
        by_cases hinv : (utf8.DecodeRune (b :: rest)).1 = utf8.RuneError
            ∧ (utf8.DecodeRune (b :: rest)).2 = 1
        · simp only [if_pos hinv] at hg ⊢
          have hl : lit "\\ufffd" = [92, 117, 102, 102, 102, 100] := by decide
          simp only [hl, List.cons_append, List.nil_append, List.length_cons] at hg ⊢
          have hu : ∀ t, json.getu4 (92 :: 117 :: 102 :: 102 :: 102 :: 100 :: t) = some 0xFFFD := by
            intro t
            have h1 : json.hexVal 102 = some 15 := by decide
            have h2 : json.hexVal 100 = some 13 := by decide
            simp [json.getu4, h1, h2]
          rw [json.unquote_u g _ _ _ _ _ acc 0xFFFD (hu _) (by omega), ih rest g _ R hr (by omega)]
          have he : utf8.EncodeRune 0xFFFD = [0xEF, 0xBF, 0xBD] := by decide
          simp [he]
        · simp only [if_neg hinv] at hg ⊢
          obtain ⟨pre, htake, hdrop, hsize, hpl, henc, hdec⟩ := utf8.DecodeRune_valid b rest hinv
          have hdl : (rest.drop pre.length).length ≤ fuel := by
            simp only [List.length_drop]; omega
          rw [htake, hdrop] at hg ⊢
          by_cases hsep : (utf8.DecodeRune (b :: rest)).1 = 0x2028
              ∨ (utf8.DecodeRune (b :: rest)).1 = 0x2029
          · simp only [if_pos hsep] at hg ⊢
            have hl : lit "\\u202" = [92, 117, 50, 48, 50] := by decide
            simp only [hl, List.cons_append, List.nil_append, List.length_cons] at hg ⊢
            have hu : ∀ t, json.getu4 (92 :: 117 :: 50 :: 48 :: 50
                :: json.hexDigit (utf8.DecodeRune (b :: rest)).1 :: t)
                = some (utf8.DecodeRune (b :: rest)).1 := by
              intro t
              have h1 : json.hexVal 50 = some 2 := by decide
              have h2 : json.hexVal 48 = some 0 := by decide
              simp only [json.getu4, json.hexVal_hexDigit, h1, h2, and_self, if_true]
              rcases hsep with h | h <;> rw [h]
            rw [json.unquote_u g _ _ _ _ _ acc _ (hu _) (by rcases hsep with h | h <;> rw [h] <;> omega),
              ih _ g _ R hdl (by omega), henc]
            simp
          · simp only [if_neg hsep, List.cons_append, List.length_cons, List.length_append] at hg ⊢
            have hdec2 := hdec (json.escape fuel (rest.drop pre.length) ++ 34 :: R)
            rw [List.cons_append] at hdec2
            rw [List.append_assoc, json.unquote_rune g b _ acc hge, hdec2, hsize, henc]
            simp only [List.drop_succ_cons, List.drop_left]
            rw [ih _ g _ R hdl (by omega)]
            simp

theorem coerceUTF8_valid : ∀ (fuel : Nat) (s : Bytes), utf8.validAux fuel s = true →
    coerceUTF8 fuel s = s := by
  intro fuel
  induction fuel with
  | zero =>
    intro s h
    cases s with
    | nil => rfl
    | cons b rest => simp [utf8.validAux] at h
  | succ fuel ih =>
    intro s h
    cases s with
    | nil => rfl
    | cons b rest =>
      simp only [utf8.validAux] at h
      simp only [coerceUTF8]
      split_ifs at h ⊢ with hinv
      rw [ih _ h, List.take_append_drop]

theorem isDigit_iff (c : Byte) : json.isDigit c = true ↔ 48 ≤ c.toNat ∧ c.toNat ≤ 57 := by
  simp [json.isDigit]

theorem json.digitsValue_append (l1 l2 : Bytes) (a : Nat) :
    json.digitsValue (l1 ++ l2) a = (json.digitsValue l1 a).bind (json.digitsValue l2) := by
  induction l1 generalizing a with
  | nil => simp [json.digitsValue]
  | cons c rest ih =>
    simp only [List.cons_append, json.digitsValue]
    split_ifs
    · exact ih _
    · rfl

/-- The digits `formatDigits` writes: at least one, no leading zero unless
the number is zero, and they read back as the number. -/
theorem strconv.formatDigits_spec : ∀ (fuel n : Nat) (acc : Bytes), n < 10 ^ fuel → 0 < fuel →
    ∃ d ds, strconv.formatDigits fuel n acc = d :: ds ++ acc
      ∧ (∀ c ∈ d :: ds, json.isDigit c = true)
      ∧ (d = 48 → n = 0 ∧ ds = [])
      ∧ ∀ a, json.digitsValue (d :: ds) a = some (a * 10 ^ (ds.length + 1) + n) := by
  intro fuel
  induction fuel with
  | zero => intro n acc _ h; omega
  | succ fuel ih =>
    intro n acc hn _
    simp only [strconv.formatDigits]
    by_cases h10 : n < 10
    · rw [if_pos h10]
      have hd : json.isDigit (UInt8.ofNat (48 + n)) = true := by
        rw [isDigit_iff, toNat_ofNat]; omega
      refine ⟨UInt8.ofNat (48 + n), [], by simp, by simpa using hd, ?_, ?_⟩
      · intro h
        have := congrArg UInt8.toNat h
        rw [toNat_ofNat] at this
        have h48 : (48 : UInt8).toNat = 48 := rfl
        refine ⟨by omega, rfl⟩
      · intro a
        simp only [json.digitsValue, hd, if_true, toNat_ofNat, List.length_nil]
        congr 1; omega
    · rw [if_neg h10]
      have hf : 0 < fuel := by
        rcases fuel with _ | f
        · simp at hn; omega
        · omega
      obtain ⟨d, ds, h1, h2, h3, h4⟩ := ih (n / 10) (UInt8.ofNat (48 + n % 10) :: acc)
        (by rw [pow_succ] at hn; omega) hf
      have hd : json.isDigit (UInt8.ofNat (48 + n % 10)) = true := by
        rw [isDigit_iff, toNat_ofNat]; omega
      refine ⟨d, ds ++ [UInt8.ofNat (48 + n % 10)], by simp [h1], ?_, ?_, ?_⟩
      · intro c hc
        simp only [List.mem_cons, List.mem_append, List.mem_singleton, List.not_mem_nil,
          or_false] at hc
        rcases hc with rfl | hc | rfl
        · exact h2 _ (List.mem_cons_self _ _)
        · exact h2 _ (List.mem_cons_of_mem _ hc)
        · exact hd
      · intro h
        have := (h3 h).1
        omega
      · intro a
        have := json.digitsValue_append (d :: ds) [UInt8.ofNat (48 + n % 10)] a
        rw [List.cons_append] at this
        rw [this, h4 a]
        simp only [Option.some_bind, json.digitsValue, hd, if_true, toNat_ofNat, List.length_append,
          List.length_cons, List.length_nil]
        congr 1
        have h5 : (48 + n % 10) % 256 - 48 = n % 10 := by omega
        rw [h5, pow_succ (n := ds.length + 0 + 1)]
        have h6 := Nat.div_add_mod n 10
        generalize 10 ^ (ds.length + 0 + 1) = q
        rw [Nat.add_mul, Nat.mul_assoc, Nat.add_assoc]
        omega

theorem json.spanDigits_append (ds : Bytes) (c : Byte) (rest : Bytes)
    (hds : ∀ x ∈ ds, json.isDigit x = true) (hc : json.isDigit c = false) :
    json.spanDigits (ds ++ c :: rest) = (ds, c :: rest) := by
  induction ds with
  | nil => simp [json.spanDigits, hc]
  | cons d ds ih =>
    have h1 := hds d (List.mem_cons_self _ _)
    have h2 := ih fun x hx => hds x (List.mem_cons_of_mem _ hx)
    simp [json.spanDigits, h1, h2]

theorem json.scanFrac_end (c : Byte) (rest : Bytes) (hc : c = 44 ∨ c = 125) :
    json.scanFrac (c :: rest) = some ([], c :: rest) := by
  rcases hc with rfl | rfl <;> simp [json.scanFrac, json.scanExp]

theorem json.scanUnsigned_digits (d : Byte) (ds : Bytes) (c : Byte) (rest : Bytes)
    (hds : ∀ x ∈ d :: ds, json.isDigit x = true) (hz : d = 48 → ds = [])
    (hc : c = 44 ∨ c = 125) :
    json.scanUnsigned (d :: ds ++ c :: rest) = some (d :: ds, c :: rest) := by
  have hcd : json.isDigit c = false := by rcases hc with rfl | rfl <;> decide
  simp only [List.cons_append, json.scanUnsigned]
  by_cases h0 : d = 48
  · rw [if_pos h0, hz h0]
    simp [json.scanFrac_end c rest hc]
  · rw [if_neg h0, if_pos (hds d (List.mem_cons_self _ _)),
      json.spanDigits_append ds c rest (fun x hx => hds x (List.mem_cons_of_mem _ hx)) hcd]
    simp [json.scanFrac_end c rest hc]

theorem int64_natAbs_lt (n : Int64) : n.val.natAbs < 10 ^ 20 := by
  have h1 := n.property.1
  have h2 := n.property.2
  omega

/-- The literal of an `int64`: an optional sign and the digits. -/
theorem strconv.formatInt_spec (n : Int64) :
    ∃ d ds, (∀ x ∈ d :: ds, json.isDigit x = true) ∧ (d = 48 → ds = [])
      ∧ json.digitsValue (d :: ds) 0 = some n.val.natAbs
      ∧ strconv.formatInt n = if n.val < 0 then 45 :: d :: ds else d :: ds := by
  obtain ⟨d, ds, h1, h2, h3, h4⟩ :=
    strconv.formatDigits_spec 20 n.val.natAbs [] (int64_natAbs_lt n) (by decide)
  refine ⟨d, ds, h2, fun h => (h3 h).2, by simpa using h4 0, ?_⟩
  simp only [strconv.formatInt, h1, List.append_nil]

theorem json.parseInt64_formatInt (n : Int64) : json.parseInt64 (strconv.formatInt n) = some n := by
  obtain ⟨d, ds, h1, h2, h3, h4⟩ := strconv.formatInt_spec n
  have hp1 := n.property.1
  have hp2 := n.property.2
  rw [h4]
  by_cases hneg : n.val < 0
  · rw [if_pos hneg]
    simp only [json.parseInt64, if_true, h3]
    rw [dif_pos (by omega)]
    congr 1
    apply Subtype.ext
    simp only
    omega
  · rw [if_neg hneg]
    have hd : d ≠ 45 := by
      rintro rfl
      have := h1 45 (List.mem_cons_self _ _)
      revert this; decide
    simp only [json.parseInt64, if_neg hd, h3]
    rw [dif_pos (by omega)]
    congr 1
    apply Subtype.ext
    simp only
    omega

theorem json.scanNumber_formatInt (n : Int64) (c : Byte) (rest : Bytes) (hc : c = 44 ∨ c = 125) :
    json.scanNumber (strconv.formatInt n ++ c :: rest) = some (strconv.formatInt n, c :: rest) := by
  obtain ⟨d, ds, h1, h2, h3, h4⟩ := strconv.formatInt_spec n
  rw [h4]
  have hd : d ≠ 45 := by
    rintro rfl
    have := h1 45 (List.mem_cons_self _ _)
    revert this; decide
  by_cases hneg : n.val < 0
  · simp only [if_pos hneg, List.cons_append, json.scanNumber, if_true]
    have := json.scanUnsigned_digits d ds c rest h1 h2 hc
    rw [List.cons_append] at this
    simp [this]
  · simp only [if_neg hneg, List.cons_append, json.scanNumber, if_neg hd]
    exact json.scanUnsigned_digits d ds c rest h1 h2 hc

theorem json.parseValue_number (fuel depth : Nat) (n : Int64) (c : Byte) (rest : Bytes)
    (hc : c = 44 ∨ c = 125) :
    json.parseValue (fuel + 1) depth (strconv.formatInt n ++ c :: rest)
      = some (.number (strconv.formatInt n), c :: rest) := by
  have hs := json.scanNumber_formatInt n c rest hc
  obtain ⟨d, ds, h1, h2, h3, h4⟩ := strconv.formatInt_spec n
  have hd := (isDigit_iff d).1 (h1 d (List.mem_cons_self _ _))
  have key : ∀ (x : Byte) (tail raw : Bytes), (x = 45 ∨ (48 ≤ x.toNat ∧ x.toNat ≤ 57)) →
      json.scanNumber (x :: tail) = some (raw, c :: rest) →
      json.parseValue (fuel + 1) depth (x :: tail) = some (.number raw, c :: rest) := by
    intro x tail raw hx hsc
    have hsp : json.isSpace x = false := by
      rcases hx with rfl | hx
      · decide
      · simp only [json.isSpace, Bool.or_eq_false_iff, beq_eq_false_iff_ne]
        refine ⟨⟨⟨?_, ?_⟩, ?_⟩, ?_⟩ <;> (rintro rfl; revert hx; decide)
    have hne : ∀ v : Byte, ¬ (v = 45 ∨ (48 ≤ v.toNat ∧ v.toNat ≤ 57)) → x ≠ v := by
      rintro v hv rfl; exact hv hx
    simp only [json.parseValue, json.skipSpace, hsp, Bool.false_eq_true, if_false,
      if_neg (hne 123 (by decide)), if_neg (hne 91 (by decide)), if_neg (hne 34 (by decide)),
      if_neg (hne 116 (by decide)), if_neg (hne 102 (by decide)), if_neg (hne 110 (by decide)),
      hsc, Option.map_some']
  rw [h4] at hs ⊢
  by_cases hneg : n.val < 0
  · simp only [if_pos hneg, List.cons_append] at hs ⊢
    exact key _ _ _ (Or.inl rfl) hs
  · simp only [if_neg hneg, List.cons_append] at hs ⊢
    exact key _ _ _ (Or.inr hd) hs

theorem coerceToken_valid (t : SessionToken) (h : validStrings t = true) : coerceToken t = t := by
  simp only [validStrings, utf8.Valid, Bool.and_eq_true] at h
  obtain ⟨⟨⟨h1, h2⟩, h3⟩, h4⟩ := h
  simp only [coerceToken, coerceUTF8_valid _ _ h1, coerceUTF8_valid _ _ h2,
    coerceUTF8_valid _ _ h3, coerceUTF8_valid _ _ h4]

theorem json.unquote_quote_tail (s rest : Bytes) :
    json.unquote (json.escape s.length s ++ 34 :: rest).length.succ
        (json.escape s.length s ++ 34 :: rest) []
      = some (coerceUTF8 s.length s, rest) := by
  have := json.unquote_escape s.length s (json.escape s.length s ++ 34 :: rest).length.succ [] rest
    le_rfl (by simp; omega)
  simpa using this

theorem json.quote_append (s rest : Bytes) :
    json.quote s ++ rest = 34 :: (json.escape s.length s ++ 34 :: rest) := by
  simp [json.quote]

theorem json.parseValue_string (fuel depth : Nat) (s rest : Bytes) :
    json.parseValue (fuel + 1) depth (json.quote s ++ rest)
      = some (.string (coerceUTF8 s.length s), rest) := by
  rw [json.quote_append]
  have h1 : json.isSpace 34 = false := by decide
  simp only [json.parseValue, json.skipSpace, h1, Bool.false_eq_true, if_false]
  rw [if_neg (by decide), if_neg (by decide), if_pos trivial, json.unquote_quote_tail]
  rfl

theorem json.parseValue_bool (fuel depth : Nat) (b : Bool) (c : Byte) (rest : Bytes) :
    json.parseValue (fuel + 1) depth (json.boolLit b ++ c :: rest) = some (.bool b, c :: rest) := by
  cases b
  · have : json.boolLit false ++ c :: rest = 102 :: 97 :: 108 :: 115 :: 101 :: c :: rest := by
      have : json.boolLit false = [102, 97, 108, 115, 101] := by decide
      rw [this]; rfl
    rw [this]
    have h1 : json.isSpace 102 = false := by decide
    have h2 : lit "alse" = [97, 108, 115, 101] := by decide
    simp only [json.parseValue, json.skipSpace, h1, Bool.false_eq_true, if_false]
    rw [if_neg (by decide), if_neg (by decide), if_neg (by decide), if_neg (by decide),
      if_pos trivial]
    simp [json.dropLiteral, h2]
  · have : json.boolLit true ++ c :: rest = 116 :: 114 :: 117 :: 101 :: c :: rest := by
      have : json.boolLit true = [116, 114, 117, 101] := by decide
      rw [this]; rfl
    rw [this]
    have h1 : json.isSpace 116 = false := by decide
    have h2 : lit "rue" = [114, 117, 101] := by decide
    simp only [json.parseValue, json.skipSpace, h1, Bool.false_eq_true, if_false]
    rw [if_neg (by decide), if_neg (by decide), if_neg (by decide), if_pos trivial]
    simp [json.dropLiteral, h2]

/-- One member of an object: a key that needs no escaping, a colon and a
value, followed by a comma or the closing brace. -/
theorem json.parseMembers_step (fuel depth : Nat) (key vrest : Bytes) (v : json.Value) (d : Byte)
    (rest : Bytes) (acc : List (Bytes × json.Value))
    (hk : coerceUTF8 key.length key = key)
    (hv : json.parseValue fuel depth vrest = some (v, d :: rest)) (hd : d = 44 ∨ d = 125) :
    json.parseMembers (fuel + 1) depth (json.quote key ++ 58 :: vrest) acc
      = if d = 44 then json.parseMembers fuel depth rest (acc ++ [(key, v)])
        else some (.object (acc ++ [(key, v)]), rest) := by
  have h1 : json.isSpace 34 = false := by decide
  have h2 : json.isSpace 58 = false := by decide
  have h3 : json.isSpace d = false := by rcases hd with rfl | rfl <;> decide
  rw [json.quote_append]
  simp only [json.parseMembers, json.skipSpace, h1, h2, Bool.false_eq_true, if_false, if_true,
    json.unquote_quote_tail, hk, hv, h3]
  rcases hd with rfl | rfl
  · simp
  · simp

theorem json.Marshal_eq (t : SessionToken) : json.Marshal t = .ok (marshalBytes t) := by
  have h1 : lit "\x7b\"sid\":" = 123 :: (json.quote (lit "sid") ++ [58]) := by decide
  have h2 : lit ",\"token_id\":" = 44 :: (json.quote (lit "token_id") ++ [58]) := by decide
  have h3 : lit ",\"authenticated\":" = 44 :: (json.quote (lit "authenticated") ++ [58]) := by
    decide
  have h4 : lit ",\"user_id\":" = 44 :: (json.quote (lit "user_id") ++ [58]) := by decide
  have h5 : lit ",\"auth_type\":" = 44 :: (json.quote (lit "auth_type") ++ [58]) := by decide
  have h6 : lit ",\"password_tag\":" = 44 :: (json.quote (lit "password_tag") ++ [58]) := by
    decide
  have h7 : lit ",\"exp_access\":" = 44 :: (json.quote (lit "exp_access") ++ [58]) := by decide
  have h8 : lit ",\"exp_refresh\":" = 44 :: (json.quote (lit "exp_refresh") ++ [58]) := by decide
  have h9 : lit "\x7d" = [125] := by decide
  simp only [json.Marshal, marshalBytes, h1, h2, h3, h4, h5, h6, h7, h8, h9, List.append_assoc,
    List.cons_append, List.singleton_append, List.nil_append]

/-- The members `json.Unmarshal` finds in the bytes of a marshalled token. -/
theorem json.parse_marshalBytes (t : SessionToken) :
    json.parse (marshalBytes t) = some (.object
      [(lit "sid", .string (coerceUTF8 t.SessionId.length t.SessionId)),
       (lit "token_id", .string (coerceUTF8 t.TokenId.length t.TokenId)),
       (lit "authenticated", .bool t.Authenticated),
       (lit "user_id", .number (strconv.formatInt t.UserId)),
       (lit "auth_type", .string (coerceUTF8 t.AuthType.length t.AuthType)),
       (lit "password_tag", .string (coerceUTF8 t.PasswordTag.length t.PasswordTag)),
       (lit "exp_access", .number (strconv.formatInt t.ExpAccess)),
       (lit "exp_refresh", .number (strconv.formatInt t.ExpRefresh))]) := by
  have hlen : 9 ≤ (marshalBytes t).length := by
    simp only [marshalBytes, List.length_cons, List.length_append]
    omega
  obtain ⟨k, hk⟩ : ∃ k, (marshalBytes t).length + 1 = k + 10 := ⟨(marshalBytes t).length - 9, by omega⟩
  have k1 : coerceUTF8 (lit "sid").length (lit "sid") = lit "sid" := by decide
  have k2 : coerceUTF8 (lit "token_id").length (lit "token_id") = lit "token_id" := by decide
  have k3 : coerceUTF8 (lit "authenticated").length (lit "authenticated") = lit "authenticated" := by
    decide
  have k4 : coerceUTF8 (lit "user_id").length (lit "user_id") = lit "user_id" := by decide
  have k5 : coerceUTF8 (lit "auth_type").length (lit "auth_type") = lit "auth_type" := by decide
  have k6 : coerceUTF8 (lit "password_tag").length (lit "password_tag") = lit "password_tag" := by
    decide
  have k7 : coerceUTF8 (lit "exp_access").length (lit "exp_access") = lit "exp_access" := by decide
  have k8 : coerceUTF8 (lit "exp_refresh").length (lit "exp_refresh") = lit "exp_refresh" := by
    decide
  have hq : ∀ (s rest : Bytes), json.skipSpace (json.quote s ++ rest) = json.quote s ++ rest := by
    intro s rest
    rw [json.quote_append]
    have : json.isSpace 34 = false := by decide
    simp [json.skipSpace, this]
  have hq2 : ∀ (s rest : Bytes), ∃ tail, json.quote s ++ rest = 34 :: tail :=
    fun s rest => ⟨_, json.quote_append s rest⟩
  rw [json.parse, hk, marshalBytes]
  have hb : json.isSpace 123 = false := by decide
  have hstart : ∀ (x : Bytes), json.parseValue (k + 9 + 1) 0 (123 :: (json.quote (lit "sid") ++ x))
      = json.parseMembers (k + 9) 1 (json.quote (lit "sid") ++ x) [] := by
    intro x
    obtain ⟨tl, htl⟩ := hq2 (lit "sid") x
    have hb2 : json.isSpace 34 = false := by decide
    rw [htl]
    simp only [json.parseValue, json.skipSpace, hb, hb2, Bool.false_eq_true, if_false, if_true,
      json.maxNestingDepth]
    rw [if_neg (by omega), if_neg (by decide)]
  rw [hstart]
  rw [json.parseMembers_step (k + 8) 1 _ _ _ 44 _ _ k1 (json.parseValue_string _ _ _ _) (Or.inl rfl),
    if_pos rfl,
    json.parseMembers_step (k + 7) 1 _ _ _ 44 _ _ k2 (json.parseValue_string _ _ _ _) (Or.inl rfl),
    if_pos rfl,
    json.parseMembers_step (k + 6) 1 _ _ _ 44 _ _ k3 (json.parseValue_bool _ _ _ _ _) (Or.inl rfl),
    if_pos rfl,
    json.parseMembers_step (k + 5) 1 _ _ _ 44 _ _ k4
      (json.parseValue_number _ _ _ _ _ (Or.inl rfl)) (Or.inl rfl),
    if_pos rfl,
    json.parseMembers_step (k + 4) 1 _ _ _ 44 _ _ k5 (json.parseValue_string _ _ _ _) (Or.inl rfl),
    if_pos rfl,
    json.parseMembers_step (k + 3) 1 _ _ _ 44 _ _ k6 (json.parseValue_string _ _ _ _) (Or.inl rfl),
    if_pos rfl,
    json.parseMembers_step (k + 2) 1 _ _ _ 44 _ _ k7
      (json.parseValue_number _ _ _ _ _ (Or.inl rfl)) (Or.inl rfl),
    if_pos rfl,
    json.parseMembers_step (k + 1) 1 _ _ _ 125 [] _ k8
      (json.parseValue_number _ _ _ _ _ (Or.inr rfl)) (Or.inr rfl),
    if_neg (by decide)]
  simp [json.skipSpace]

theorem json.storeMembers_cons (key : Bytes) (v : json.Value) (rest : List (Bytes × json.Value))
    (st : json.DecodeState) (f : json.Field) (hf : json.fieldFor key = some f) :
    json.storeMembers ((key, v) :: rest) st = json.storeMembers rest (json.store st f v) := by
  simp only [json.storeMembers, hf]

theorem json.fieldFor_names :
    json.fieldFor (lit "sid") = some .SessionId
    ∧ json.fieldFor (lit "token_id") = some .TokenId
    ∧ json.fieldFor (lit "authenticated") = some .Authenticated
    ∧ json.fieldFor (lit "user_id") = some .UserId
    ∧ json.fieldFor (lit "auth_type") = some .AuthType
    ∧ json.fieldFor (lit "password_tag") = some .PasswordTag
    ∧ json.fieldFor (lit "exp_access") = some .ExpAccess
    ∧ json.fieldFor (lit "exp_refresh") = some .ExpRefresh := by decide

theorem json.Unmarshal_marshalBytes (t r : SessionToken) :
    json.Unmarshal (marshalBytes t) r = (none, coerceToken t) := by
  obtain ⟨f1, f2, f3, f4, f5, f6, f7, f8⟩ := json.fieldFor_names
  rw [json.Unmarshal, json.parse_marshalBytes]
  show json.storeMembers _ _ = _
  rw [json.storeMembers_cons _ _ _ _ _ f1, json.storeMembers_cons _ _ _ _ _ f2,
    json.storeMembers_cons _ _ _ _ _ f3, json.storeMembers_cons _ _ _ _ _ f4,
    json.storeMembers_cons _ _ _ _ _ f5, json.storeMembers_cons _ _ _ _ _ f6,
    json.storeMembers_cons _ _ _ _ _ f7, json.storeMembers_cons _ _ _ _ _ f8]
  simp only [json.storeMembers, json.store, json.parseInt64_formatInt, coerceToken]

/-- The payload of an encoded token holds no separator. -/
theorem payloadOf_no_sep (x : Bytes) : tokenBytesSplitSep ∉ payloadOf x := by
  obtain ⟨j, -, -, h⟩ := payloadOf_spec x
  intro hm
  exact urlSafe_ne_dot (h _ hm) rfl

/-- The signature of an encoded token holds no separator. -/
theorem signature_no_sep (b : Bytes) : tokenBytesSplitSep ∉ hex.encode b := by
  intro hm
  have := hex.encode_lowerHex b _ hm
  rw [show tokenBytesSplitSep = 46 from rfl, not_lowerHex_dot] at this
  cases this

/-- The result of `Decode` on a payload written by `Encode` whose signature
is the one `Decode` computes, whatever pieces follow. -/
theorem Decode_accept (r : SessionToken) (x tokenBytes securityKey : Bytes) (more : List Bytes)
    (h : bytesSplit tokenBytes tokenBytesSplitSep
      = payloadOf x :: hex.encode (hmac.sum securityKey (payloadOf x)) :: more) :
    Decode r tokenBytes securityKey
      = ⟨(json.Unmarshal x r).1, (json.Unmarshal x r).2, tokenBytes⟩ := by
  rw [Decode_signed r tokenBytes securityKey (payloadOf x) more h, base64Pad_payloadOf,
    base64.decode_encode]

/-- The two pieces of an encoded token. -/
theorem bytesSplit_wire (x sum : Bytes) :
    bytesSplit (payloadOf x ++ 46 :: hex.encode sum) tokenBytesSplitSep
      = [payloadOf x, hex.encode sum] := by
  rw [show (46 : Byte) = tokenBytesSplitSep from rfl,
    bytesSplit_append _ _ _ (payloadOf_no_sep x), bytesSplit_no_sep _ _ (signature_no_sep sum)]

/-- The closed form of `Encode`. -/
theorem Encode_marshalBytes (t : SessionToken) (k : Bytes) :
    Encode t k = some (.ok (payloadOf (marshalBytes t) ++ 46
      :: hex.encode (hmac.sum k (payloadOf (marshalBytes t))))) := by
  rw [Encode_eq t k _ (json.Marshal_eq t)]
  simp

/-- Decoding what `Encode` wrote, with the key it was written with. -/
theorem Decode_Encode (r t : SessionToken) (k : Bytes) :
    Decode r (payloadOf (marshalBytes t) ++ 46
      :: hex.encode (hmac.sum k (payloadOf (marshalBytes t)))) k
      = ⟨none, coerceToken t, payloadOf (marshalBytes t) ++ 46
          :: hex.encode (hmac.sum k (payloadOf (marshalBytes t)))⟩ := by
  rw [Decode_accept r (marshalBytes t) _ k [] (bytesSplit_wire _ _), json.Unmarshal_marshalBytes]

theorem hex.digit_injective (i j : Nat) (hi : i < 16) (hj : j < 16)
    (h : hex.hextable.getD i 0 = hex.hextable.getD j 0) : i = j := by
  have key : ∀ a b : Fin 16, hex.hextable.getD a.val 0 = hex.hextable.getD b.val 0 → a = b := by
    decide
  exact congrArg Fin.val (key ⟨i, hi⟩ ⟨j, hj⟩ h)

theorem hex.encode_injective : ∀ (a b : Bytes), hex.encode a = hex.encode b → a = b := by
  intro a
  induction a with
  | nil =>
    intro b h
    cases b with
    | nil => rfl
    | cons v rest => simp [hex.encode] at h
  | cons u resta ih =>
    intro b h
    cases b with
    | nil => simp [hex.encode] at h
    | cons v restb =>
      simp only [hex.encode, List.cons.injEq] at h
      have hu := byte_lt u
      have hv := byte_lt v
      have h1 := hex.digit_injective _ _ (by omega) (by omega) h.1
      have h2 := hex.digit_injective _ _ (by omega) (by omega) h.2.1
      rw [ih restb h.2.2, UInt8.ext (show u.toNat = v.toNat by omega)]

/-- The first piece of an input that starts with bytes other than the
separator starts with these bytes. -/
theorem bytesSplit_lead (a s : Bytes) (sep : Byte) (h : sep ∉ a) :
    ∃ seg segs, bytesSplit s sep = seg :: segs
      ∧ bytesSplit (a ++ s) sep = (a ++ seg) :: segs := by
  induction a with
  | nil =>
    obtain ⟨seg, segs, h1, -⟩ := bytesSplit_head s sep
    exact ⟨seg, segs, h1, by simpa using h1⟩
  | cons c rest ih =>
    have hc : c ≠ sep := fun e => h (e ▸ List.mem_cons_self _ _)
    obtain ⟨seg, segs, h1, h2⟩ := ih fun m => h (List.mem_cons_of_mem _ m)
    exact ⟨seg, segs, h1, by rw [List.cons_append, bytesSplit, if_neg hc, h2]; rfl⟩

/-- What `Encode` returns is the payload, the separator and the
signature. -/
theorem Encode_inv (t : SessionToken) (k b : Bytes) (h : Encode t k = some (.ok b)) :
    b = payloadOf (marshalBytes t) ++ 46
      :: hex.encode (hmac.sum k (payloadOf (marshalBytes t))) := by
  rw [Encode_marshalBytes] at h
  injection h with h
  injection h with h
  exact h.symm

/-- C1 (as amended): for every token whose four string fields are valid UTF-8,
every key and every receiver, `Encode` returns bytes `b` without error and
`Decode` of `b` under the same key returns no error, leaves the receiver equal
to the token in all eight fields, whatever the expiry times are, and leaves
`b` as it was. -/
theorem roundtrip_valid_utf8 (t r : SessionToken) (k : Bytes) (h : validStrings t = true) :
    ∃ b, Encode t k = some (.ok b) ∧ Decode r b k = ⟨none, t, b⟩ := by
  refine ⟨_, Encode_marshalBytes t k, ?_⟩
  rw [Decode_Encode, coerceToken_valid t h]

/-- Witness of C1: the scenario of the spec, key `secret`. -/
theorem roundtrip_valid_utf8_witness :
    validStrings scenarioToken = true
      ∧ ∃ b, Encode scenarioToken (lit "secret") = some (.ok b)
        ∧ Decode zeroToken b (lit "secret") = ⟨none, scenarioToken, b⟩ :=
  ⟨by decide, roundtrip_valid_utf8 scenarioToken zeroToken (lit "secret") (by decide)⟩

set_option maxRecDepth 1000000 in
set_option maxHeartbeats 4000000 in
/-- Counterexample to C1 as stated: a token whose `SessionId` is the byte
`0xff` is encoded without error, and decoding the result under the same key
succeeds with a `SessionId` of `U+FFFD`, a token different from the one that
was encoded. -/
theorem roundtrip_invalid_utf8_counterexample :
    ∃ b, Encode invalidUTF8Token (lit "secret") = some (.ok b)
      ∧ (Decode zeroToken b (lit "secret")).err = none
      ∧ (Decode zeroToken b (lit "secret")).token.SessionId = [0xEF, 0xBF, 0xBD]
      ∧ (Decode zeroToken b (lit "secret")).token ≠ invalidUTF8Token := by
  refine ⟨_, Encode_marshalBytes _ _, ?_⟩
  rw [Decode_Encode]
  decide

/-- C7: for every token and key, the output of `Encode` holds exactly one
`.`, 65 bytes before its end; the bytes before it are of the alphabet `A-Z`,
`a-z`, `0-9`, `-`, `_` (so none is `.` or `=`), and the 64 bytes after it are
of `0-9`, `a-f`. -/
theorem encode_well_formed (t : SessionToken) (k : Bytes) :
    ∃ b, Encode t k = some (.ok b) ∧ b.count 46 = 1 ∧ 65 ≤ b.length
      ∧ b.getD (b.length - 65) 0 = 46
      ∧ (∀ c ∈ b.take (b.length - 65), isURLSafe c = true ∧ c ≠ 46 ∧ c ≠ 61)
      ∧ (b.drop (b.length - 64)).length = 64
      ∧ ∀ c ∈ b.drop (b.length - 64), isLowerHex c = true := by
  refine ⟨_, Encode_marshalBytes t k, ?_⟩
  obtain ⟨j, -, -, h3⟩ := payloadOf_spec (marshalBytes t)
  set P := payloadOf (marshalBytes t) with hP
  have hH := signature_length k P
  have hHx := hex.encode_lowerHex (hmac.sum k P)
  set H := hex.encode (hmac.sum k P) with hHd
  have hlen : (P ++ 46 :: H).length = P.length + 65 := by simp [hH]
  have e1 : (P ++ 46 :: H).length - 65 = P.length := by omega
  have e2 : (P ++ 46 :: H).length - 64 = P.length + 1 := by omega
  have hdrop : (P ++ 46 :: H).drop (P.length + 1) = H := by
    rw [show P ++ 46 :: H = (P ++ [46]) ++ H by simp,
      show P.length + 1 = (P ++ [46]).length by simp, List.drop_left]
  rw [e1, e2, hdrop]
  refine ⟨?_, by omega, ?_, ?_, hH, hHx⟩
  · have c1 : P.count 46 = 0 := List.count_eq_zero.2 fun hm => urlSafe_ne_dot (h3 _ hm) rfl
    have c2 : H.count 46 = 0 := List.count_eq_zero.2 fun hm => by
      have := hHx _ hm
      rw [not_lowerHex_dot] at this
      cases this
    simp [List.count_append, List.count_cons, c1, c2]
  · rw [List.getD_append_right _ _ _ _ le_rfl]
    simp
  · intro c hc
    rw [List.take_left] at hc
    exact ⟨h3 c hc, urlSafe_ne_dot (h3 c hc), urlSafe_ne_pad (h3 c hc)⟩

/-- C9: for every key and receiver, an input without a `.` byte, the empty
input included, makes `Decode` return the error `invalid token bytes` and
leave the receiver and the input as they were. -/
theorem decode_no_separator (r : SessionToken) (tokenBytes k : Bytes) (h : 46 ∉ tokenBytes) :
    Decode r tokenBytes k = ⟨some (.errorString "invalid token bytes"), r, tokenBytes⟩ :=
  Decode_no_sep r tokenBytes k h

/-- Witness of C9: the empty input. -/
theorem decode_no_separator_witness :
    (46 : Byte) ∉ ([] : Bytes)
      ∧ Decode zeroToken [] (lit "secret")
        = ⟨some (.errorString "invalid token bytes"), zeroToken, []⟩ :=
  ⟨by simp, decode_no_separator zeroToken [] (lit "secret") (by simp)⟩

/-- C3: when the piece after the first `.` has 64 bytes and is not the
lower-case hexadecimal HMAC-SHA256 of the piece before it, `Decode` returns
the signature error, whatever the payload piece holds, and no base64 or JSON
error; and `Decode` returns no error only if the second piece is exactly that
HMAC. -/
theorem decode_signature_checked_first (r : SessionToken) (tokenBytes k P S : Bytes)
    (more : List Bytes) (hsplit : bytesSplit tokenBytes 46 = P :: S :: more) :
    (S.length = 64 → S ≠ hex.encode (hmac.sum k P) →
      Decode r tokenBytes k
        = ⟨some (.errorString "invalid token bytes, signature mismatch"), r, tokenBytes⟩)
    ∧ ((Decode r tokenBytes k).err = none → S = hex.encode (hmac.sum k P)) := by
  refine ⟨fun hl hs => Decode_bad_signature r tokenBytes k P S more hsplit hl hs, fun h => ?_⟩
  by_contra hs
  by_cases hl : S.length = signatureLen
  · rw [Decode_bad_signature r tokenBytes k P S more hsplit hl hs] at h
    cases h
  · rw [Decode_bad_length r tokenBytes k P S more hsplit hl] at h
    cases h

set_option maxRecDepth 1000000 in
set_option maxHeartbeats 4000000 in
/-- Witness of C3: a payload that is not base64 at all, `!!`, under 64 bytes
`0` that are not its HMAC. -/
theorem decode_signature_checked_first_witness :
    Decode zeroToken (lit "!!." ++ List.replicate 64 48) (lit "secret")
      = ⟨some (.errorString "invalid token bytes, signature mismatch"), zeroToken,
          lit "!!." ++ List.replicate 64 48⟩ :=
  (decode_signature_checked_first zeroToken (lit "!!." ++ List.replicate 64 48) (lit "secret")
    (lit "!!") (List.replicate 64 48) [] (by decide)).1 (by decide) (by decide!)

/-- C4: for every token, key and receiver, replacing one of the last 64
bytes of the output of `Encode` by any other byte (an upper-case digit or `.`
included) makes `Decode` return the signature error and leave the receiver
and the input as they were. -/
theorem decode_signature_tamper (t r : SessionToken) (k b : Bytes) (i : Nat) (c : Byte)
    (hb : Encode t k = some (.ok b)) (h1 : b.length - 64 ≤ i) (h2 : i < b.length)
    (hc : c ≠ b.getD i 0) :
    Decode r (b.set i c) k
      = ⟨some (.errorString "invalid token bytes, signature mismatch"), r, b.set i c⟩ := by
  have hb2 := Encode_inv t k b hb
  set P := payloadOf (marshalBytes t) with hP
  have hH := signature_length k P
  have hHx := signature_no_sep (hmac.sum k P)
  set H := hex.encode (hmac.sum k P) with hHd
  have hPs : tokenBytesSplitSep ∉ P := payloadOf_no_sep _
  subst hb2
  have hlen : (P ++ 46 :: H).length = P.length + 65 := by simp [hH]
  obtain ⟨j, rfl⟩ : ∃ j, i = P.length + (j + 1) := ⟨i - P.length - 1, by omega⟩
  have hj : j < H.length := by omega
  have hset : (P ++ 46 :: H).set (P.length + (j + 1)) c = P ++ 46 :: H.set j c := by
    rw [List.set_append_right _ _ (by omega)]
    simp
  have hget : (P ++ 46 :: H).getD (P.length + (j + 1)) 0 = H.getD j 0 := by
    rw [List.getD_append_right _ _ _ _ (by omega)]
    simp
  rw [hset]
  rw [hget] at hc
  by_cases hdot : c = 46
  · subst hdot
    have hs2 : H.set j 46 = H.take j ++ 46 :: H.drop (j + 1) := by
      rw [List.set_eq_take_append_cons_drop, if_pos hj]
    have hsplit : bytesSplit (P ++ 46 :: H.set j 46) tokenBytesSplitSep
        = P :: H.take j :: bytesSplit (H.drop (j + 1)) tokenBytesSplitSep := by
      rw [hs2]
      show bytesSplit (P ++ tokenBytesSplitSep :: (H.take j ++ tokenBytesSplitSep :: _)) _ = _
      rw [bytesSplit_append _ _ _ hPs,
        bytesSplit_append _ _ _ fun hm => hHx (List.mem_of_mem_take hm)]
    exact Decode_bad_length r _ k P (H.take j) _ hsplit (by
      rw [List.length_take, signatureLen]; omega)
  · have hns : tokenBytesSplitSep ∉ H.set j c := by
      intro hm
      rcases List.mem_or_eq_of_mem_set hm with hm | hm
      · exact hHx hm
      · exact hdot hm.symm
    have hsplit : bytesSplit (P ++ 46 :: H.set j c) tokenBytesSplitSep = [P, H.set j c] := by
      show bytesSplit (P ++ tokenBytesSplitSep :: _) _ = _
      rw [bytesSplit_append _ _ _ hPs, bytesSplit_no_sep _ _ hns]
    refine Decode_bad_signature r _ k P (H.set j c) [] hsplit (by simp [hH, signatureLen]) ?_
    intro he
    apply hc
    have : (H.set j c).getD j 0 = H.getD j 0 := by rw [he]
    rw [← this]
    simp [List.getD_eq_getElem?_getD, List.getElem?_set, hj]

set_option maxRecDepth 1000000 in
set_option maxHeartbeats 4000000 in
/-- Witness of C4: the last digit of the scenario token, `c`, replaced by its
upper-case form `C`. -/
theorem decode_signature_tamper_witness :
    Decode zeroToken (scenarioWire.set 278 67) (lit "secret")
      = ⟨some (.errorString "invalid token bytes, signature mismatch"), zeroToken,
          scenarioWire.set 278 67⟩ :=
  decode_signature_tamper scenarioToken zeroToken (lit "secret") scenarioWire 278 67
    (by decide!) (by decide) (by decide) (by decide)

/-- C6 (as amended): for every token, receiver and pair of keys, decoding
under `k2` what `Encode` wrote under `k1` returns the signature error exactly
when the HMAC-SHA256 tags of the payload under the two keys differ; when the
tags agree, as they do for two keys with the same 64-byte key block, `Decode`
accepts the token. -/
theorem key_sensitivity_hmac (t r : SessionToken) (k1 k2 : Bytes) :
    ∃ b, Encode t k1 = some (.ok b)
      ∧ ((Decode r b k2).err = some (.errorString "invalid token bytes, signature mismatch")
          ↔ hmac.sum k2 (payloadOf (marshalBytes t)) ≠ hmac.sum k1 (payloadOf (marshalBytes t)))
      ∧ (hmac.sum k2 (payloadOf (marshalBytes t)) = hmac.sum k1 (payloadOf (marshalBytes t))
          → Decode r b k2 = ⟨none, coerceToken t, b⟩)
      ∧ (hmac.keyBlock k2 = hmac.keyBlock k1
          → hmac.sum k2 (payloadOf (marshalBytes t)) = hmac.sum k1 (payloadOf (marshalBytes t))) := by
  refine ⟨_, Encode_marshalBytes t k1, ?_, ?_, ?_⟩
  · constructor
    · intro h he
      rw [← he, Decode_Encode] at h
      cases h
    · intro h
      rw [Decode_bad_signature r _ k2 _ _ [] (bytesSplit_wire _ _)
        (by simp [signature_length, signatureLen])
        (fun he => h (hex.encode_injective _ _ he).symm)]
      rfl
  · intro h
    rw [← h, Decode_Encode]
  · intro h
    simp only [hmac.sum, hmac.ipad, hmac.opad, h]

set_option maxRecDepth 1000000 in
set_option maxHeartbeats 4000000 in
/-- Witness of C6: the scenario of the spec, written under `secret` and
decoded under `wrong`. -/
theorem key_sensitivity_hmac_witness :
    ∃ b, Encode scenarioToken (lit "secret") = some (.ok b)
      ∧ (Decode zeroToken b (lit "wrong")).err
        = some (.errorString "invalid token bytes, signature mismatch") := by
  obtain ⟨b, h1, h2, -⟩ := key_sensitivity_hmac scenarioToken zeroToken (lit "secret") (lit "wrong")
  exact ⟨b, h1, h2.2 (by decide!)⟩

set_option maxRecDepth 1000000 in
set_option maxHeartbeats 4000000 in
/-- Counterexample to C6 as stated: the keys `secret` and `secret` followed
by a zero byte differ, and the token written under the first is accepted
under the second. -/
theorem key_sensitivity_counterexample :
    lit "secret" ≠ lit "secret" ++ [0]
      ∧ Encode scenarioToken (lit "secret") = some (.ok scenarioWire)
      ∧ Decode zeroToken scenarioWire (lit "secret" ++ [0]) = ⟨none, scenarioToken, scenarioWire⟩ :=
  ⟨by decide, by decide!, by decide!⟩

/-- C8 (as amended): for every token, key and receiver, bytes appended to
the output of `Encode` that do not start with `.` make `Decode` return the
error of the signature length check; bytes appended after a further `.` are
ignored, and `Decode` accepts the token. -/
theorem decode_trailing_data (t r : SessionToken) (k b x : Bytes)
    (hb : Encode t k = some (.ok b)) (hx : x ≠ []) (hh : x.head? ≠ some 46) :
    Decode r (b ++ x) k
        = ⟨some (.errorString "invalid token bytes, signature mismatch"), r, b ++ x⟩
      ∧ ∀ y, Decode r (b ++ 46 :: y) k = ⟨none, coerceToken t, b ++ 46 :: y⟩ := by
  have hb2 := Encode_inv t k b hb
  set P := payloadOf (marshalBytes t) with hP
  have hH := signature_length k P
  have hHx := signature_no_sep (hmac.sum k P)
  have hPs : tokenBytesSplitSep ∉ P := payloadOf_no_sep _
  subst hb2
  constructor
  · obtain ⟨c, x1, rfl⟩ := List.exists_cons_of_ne_nil hx
    have hc : c ≠ 46 := fun e => hh (by simp [e])
    have hns : tokenBytesSplitSep ∉ hex.encode (hmac.sum k P) ++ [c] := by
      intro hm
      rcases List.mem_append.1 hm with hm | hm
      · exact hHx hm
      · exact hc (List.mem_singleton.1 hm).symm
    obtain ⟨seg, segs, -, h2⟩ := bytesSplit_lead _ x1 tokenBytesSplitSep hns
    have hsplit : bytesSplit (P ++ 46 :: hex.encode (hmac.sum k P) ++ c :: x1) tokenBytesSplitSep
        = P :: (hex.encode (hmac.sum k P) ++ [c] ++ seg) :: segs := by
      rw [show P ++ 46 :: hex.encode (hmac.sum k P) ++ c :: x1
        = P ++ tokenBytesSplitSep :: ((hex.encode (hmac.sum k P) ++ [c]) ++ x1) by simp; rfl,
        bytesSplit_append _ _ _ hPs, h2]
    exact Decode_bad_length r _ k P _ _ hsplit (by
      simp only [List.length_append, hH, signatureLen, List.length_singleton]; omega)
  · intro y
    have hsplit : bytesSplit (P ++ 46 :: hex.encode (hmac.sum k P) ++ 46 :: y) tokenBytesSplitSep
        = P :: hex.encode (hmac.sum k P) :: bytesSplit y tokenBytesSplitSep := by
      rw [show P ++ 46 :: hex.encode (hmac.sum k P) ++ 46 :: y
        = P ++ tokenBytesSplitSep :: (hex.encode (hmac.sum k P) ++ tokenBytesSplitSep :: y) by
          simp; rfl,
        bytesSplit_append _ _ _ hPs, bytesSplit_append _ _ _ hHx]
    rw [Decode_accept r (marshalBytes t) _ k _ hsplit, json.Unmarshal_marshalBytes]

set_option maxRecDepth 1000000 in
set_option maxHeartbeats 4000000 in
/-- Witness of C8: the scenario token followed by the byte `x`. -/
theorem decode_trailing_data_witness :
    Decode zeroToken (scenarioWire ++ lit "x") (lit "secret")
      = ⟨some (.errorString "invalid token bytes, signature mismatch"), zeroToken,
          scenarioWire ++ lit "x"⟩ :=
  (decode_trailing_data scenarioToken zeroToken (lit "secret") scenarioWire (lit "x")
    (by decide!) (by decide) (by decide)).1

set_option maxRecDepth 1000000 in
set_option maxHeartbeats 4000000 in
/-- Counterexample to C8 as stated: the scenario token followed by the three
bytes `.xy` is accepted, and decodes to the token of the scenario. -/
theorem decode_trailing_data_counterexample :
    Encode scenarioToken (lit "secret") = some (.ok scenarioWire)
      ∧ lit ".xy" ≠ []
      ∧ Decode zeroToken (scenarioWire ++ lit ".xy") (lit "secret")
        = ⟨none, scenarioToken, scenarioWire ++ lit ".xy"⟩ :=
  ⟨by decide!, by decide, by decide!⟩

theorem json.saveError_kind (st : json.DecodeState)
    (h : st.1 = none ∨ st.1 = some .jsonUnmarshalType) :
    (json.saveError st .jsonUnmarshalType).1 = some .jsonUnmarshalType
      ∧ (json.saveError st .jsonUnmarshalType).2 = st.2 := by
  rcases st with ⟨e, t⟩
  rcases h with h | h <;> simp only at h <;> subst h <;> simp [json.saveError]

/-- What `store` does to the saved error: it keeps it, or saves an
`UnmarshalTypeError` when none is saved yet. -/
theorem json.store_err (st : json.DecodeState) (f : json.Field) (v : json.Value)
    (h : st.1 = none ∨ st.1 = some .jsonUnmarshalType) :
    (json.store st f v).1 = st.1 ∨ (json.store st f v).1 = some .jsonUnmarshalType := by
  have hs := (json.saveError_kind st h).1
  unfold json.store
  split
  · exact Or.inl rfl
  · split <;> first | exact Or.inl rfl | exact Or.inr hs
  · split <;> first | exact Or.inl rfl | exact Or.inr hs
  · split
    · split <;> first | exact Or.inl rfl | exact Or.inr hs
    · split <;> first | exact Or.inl rfl | exact Or.inr hs
    · split <;> first | exact Or.inl rfl | exact Or.inr hs
    · exact Or.inr hs
  · exact Or.inr hs

theorem json.storeMembers_err (ms : List (Bytes × json.Value)) :
    ∀ st : json.DecodeState, (st.1 = none ∨ st.1 = some .jsonUnmarshalType) →
      (json.storeMembers ms st).1 = none ∨ (json.storeMembers ms st).1 = some .jsonUnmarshalType := by
  induction ms with
  | nil => intro st h; exact h
  | cons kv rest ih =>
    intro st h
    obtain ⟨key, v⟩ := kv
    simp only [json.storeMembers]
    split
    · rename_i f _
      apply ih
      rcases json.store_err st f v h with h2 | h2
      · rw [h2]; exact h
      · exact Or.inr h2
    · exact ih st h

/-- The error of `json.Unmarshal` is `nil`, a `SyntaxError` or an
`UnmarshalTypeError`. -/
theorem json.Unmarshal_err (data : Bytes) (r : SessionToken) :
    (json.Unmarshal data r).1 = none ∨ (json.Unmarshal data r).1 = some .jsonSyntax
      ∨ (json.Unmarshal data r).1 = some .jsonUnmarshalType := by
  unfold json.Unmarshal
  split
  · exact Or.inr (Or.inl rfl)
  · exact Or.inl rfl
  · rcases json.storeMembers_err _ (none, r) (Or.inl rfl) with h | h
    · exact Or.inl h
    · exact Or.inr (Or.inr h)
  · exact Or.inr (Or.inr rfl)

/-- The four ways a call of `Decode` ends. -/
theorem Decode_cases (r : SessionToken) (tokenBytes k : Bytes) :
    Decode r tokenBytes k = ⟨some errMalformed, r, tokenBytes⟩
    ∨ Decode r tokenBytes k = ⟨some errSignature, r, tokenBytes⟩
    ∨ (∃ offset, Decode r tokenBytes k = ⟨some (.corruptInput offset), r, tokenBytes⟩)
    ∨ ∃ buf, Decode r tokenBytes k
        = ⟨(json.Unmarshal buf r).1, (json.Unmarshal buf r).2, tokenBytes⟩ := by
  obtain ⟨seg, segs, h1, h2, h3⟩ := bytesSplit_head tokenBytes tokenBytesSplitSep
  rcases h3 with ⟨rfl, rfl⟩ | ⟨rest, rfl, h3⟩
  · exact Or.inl (Decode_no_sep r _ k h2)
  · obtain ⟨S, more, hS⟩ : ∃ S more, segs = S :: more := by
      rcases hsegs : segs with _ | ⟨S, more⟩
      · rw [hsegs] at h3
        exact absurd h3.symm (bytesSplit_ne_nil _ _)
      · exact ⟨S, more, rfl⟩
    subst hS
    by_cases hl : S.length = signatureLen
    · by_cases hs : S = hex.encode (hmac.sum k seg)
      · subst hs
        right; right
        rw [Decode_signed r _ k seg more h1]
        rcases hd : (base64.decode (base64Pad seg)).2 with _ | offset
        · exact Or.inr ⟨_, rfl⟩
        · exact Or.inl ⟨offset, rfl⟩
      · exact Or.inr (Or.inl (Decode_bad_signature r _ k seg S more h1 hl hs))
    · exact Or.inr (Or.inl (Decode_bad_length r _ k seg S more h1 hl))

/-- C17: for every input, key and receiver, whether `Decode` succeeds or
fails, the contents of `tokenBytes` after the call are the contents before
the call; the bytes that the in-place padding overwrites behind the payload
are saved before and copied back after. -/
theorem decode_input_unchanged (r : SessionToken) (tokenBytes k : Bytes) :
    (Decode r tokenBytes k).tokenBytes = tokenBytes := by
  rcases Decode_cases r tokenBytes k with h | h | ⟨offset, h⟩ | ⟨buf, h⟩ <;> rw [h]

/-- C18: when `Decode` returns the malformed-format error, the signature
error (wrong length or mismatch) or a base64 error, the receiver holds the
same eight fields after the call as before. -/
theorem decode_failure_keeps_receiver (r : SessionToken) (tokenBytes k : Bytes) (e : GoError)
    (h : (Decode r tokenBytes k).err = some e)
    (hk : e = .errorString "invalid token bytes"
      ∨ e = .errorString "invalid token bytes, signature mismatch"
      ∨ ∃ offset, e = .corruptInput offset) :
    (Decode r tokenBytes k).token = r := by
  rcases Decode_cases r tokenBytes k with h1 | h1 | ⟨offset, h1⟩ | ⟨buf, h1⟩
  · rw [h1]
  · rw [h1]
  · rw [h1]
  · exfalso
    rw [h1] at h
    simp only at h
    rcases json.Unmarshal_err buf r with h2 | h2 | h2 <;> rw [h2] at h
    · cases h
    · injection h with h
      subst h
      rcases hk with hk | hk | ⟨offset, hk⟩ <;> cases hk
    · injection h with h
      subst h
      rcases hk with hk | hk | ⟨offset, hk⟩ <;> cases hk

set_option maxRecDepth 1000000 in
set_option maxHeartbeats 4000000 in
/-- Witness of C18: the payload `e`, signed under the key `k`, is not base64;
the receiver holds the scenario token before and after. -/
theorem decode_failure_keeps_receiver_witness :
    (Decode scenarioToken
        (lit "e.1769c8a8837bf5253d1657c58271a919b21e4a9ba5e23fba6d3880590516f983") (lit "k")).err
      = some (.corruptInput 1)
    ∧ (Decode scenarioToken
        (lit "e.1769c8a8837bf5253d1657c58271a919b21e4a9ba5e23fba6d3880590516f983") (lit "k")).token
      = scenarioToken :=
  ⟨by decide!, decode_failure_keeps_receiver scenarioToken _ (lit "k") (.corruptInput 1)
    (by decide!) (Or.inr (Or.inr ⟨1, rfl⟩))⟩

/-- C15: for every token and every key, the empty key included, `Encode`
returns bytes and no error, and `json.Marshal` of the token returns no
error. -/
theorem encode_never_fails (t : SessionToken) (k : Bytes) :
    (∃ b, Encode t k = some (.ok b)) ∧ (∃ j, json.Marshal t = .ok j)
      ∧ ∀ e, Encode t k ≠ some (.error e) := by
  refine ⟨⟨_, Encode_marshalBytes t k⟩, ⟨_, json.Marshal_eq t⟩, fun e h => ?_⟩
  rw [Encode_marshalBytes] at h
  injection h with h
  cases h

/-- C19: with `n` the padded base64 length of the JSON bytes and `m` the
length after trimming, `m ≤ n`; in a buffer of `n + 1 + 64` bytes the write of
`.` at index `m`, the write of the 64 signature bytes from index `m + 1` and
the slice up to `m + 65` are in range; and `Encode` runs without an index out
of range and returns exactly `m + 65` bytes. -/
theorem encode_in_bounds (t : SessionToken) (k buf sig : Bytes)
    (hb : buf.length = base64.EncodedLen (marshalBytes t).length + 1 + signatureLen)
    (hs : sig.length = signatureLen) :
    (base64Trim (base64.encode (marshalBytes t))).length
        ≤ base64.EncodedLen (marshalBytes t).length
    ∧ (writeAt buf (base64Trim (base64.encode (marshalBytes t))).length [46]).isSome = true
    ∧ (writeAt buf ((base64Trim (base64.encode (marshalBytes t))).length + 1) sig).isSome = true
    ∧ (slice buf 0 ((base64Trim (base64.encode (marshalBytes t))).length + 1
        + signatureLen)).isSome = true
    ∧ Encode t k ≠ none
    ∧ ∃ b, Encode t k = some (.ok b)
        ∧ b.length = (base64Trim (base64.encode (marshalBytes t))).length + 65 := by
  obtain ⟨q, hq⟩ := base64Trim_initial (base64.encode (marshalBytes t))
  have hlen := base64.encode_length (marshalBytes t)
  have hm : (base64Trim (base64.encode (marshalBytes t))).length
      ≤ base64.EncodedLen (marshalBytes t).length := by
    rw [← hlen]
    conv_rhs => rw [hq]
    simp
  refine ⟨hm, ?_, ?_, ?_, ?_, _, Encode_marshalBytes t k, ?_⟩
  · simp only [writeAt, List.length_singleton, hb, signatureLen]
    rw [if_pos (by omega)]; rfl
  · simp only [writeAt, hb, hs, signatureLen]
    rw [if_pos (by omega)]; rfl
  · simp only [slice, hb, signatureLen]
    rw [if_pos (by omega)]; rfl
  · rw [Encode_marshalBytes]; exact fun h => nomatch h
  · simp [payloadOf, signature_length]

set_option maxRecDepth 1000000 in
set_option maxHeartbeats 4000000 in
/-- Witness of C19: the scenario token; its JSON has 160 bytes, so `n` is
216, `m` is 214 and the buffer has 281 bytes. -/
theorem encode_in_bounds_witness :
    base64.EncodedLen (marshalBytes scenarioToken).length = 216
    ∧ (base64Trim (base64.encode (marshalBytes scenarioToken))).length = 214
    ∧ ∃ b, Encode scenarioToken (lit "secret") = some (.ok b)
        ∧ b.length = (base64Trim (base64.encode (marshalBytes scenarioToken))).length + 65 :=
  ⟨by decide!, by decide!,
    (encode_in_bounds scenarioToken (lit "secret") (List.replicate 281 0) (List.replicate 64 0)
      (by decide!) (by decide!)).2.2.2.2.2⟩

/-- C11 (as amended): `Decode` returns one error, with the text
`invalid token bytes, signature mismatch`, both for a signature piece of the
wrong length and for a 64-byte signature piece that does not match the HMAC;
this error differs from the error for an input without separator, whose text
is `invalid token bytes`. -/
theorem decode_error_kinds (r : SessionToken) (tokenBytes k P S : Bytes) (more : List Bytes)
    (hsplit : bytesSplit tokenBytes 46 = P :: S :: more)
    (hbad : S.length ≠ 64 ∨ S ≠ hex.encode (hmac.sum k P)) :
    (Decode r tokenBytes k).err = some (.errorString "invalid token bytes, signature mismatch")
    ∧ (∀ tb : Bytes, 46 ∉ tb →
        (Decode r tb k).err = some (.errorString "invalid token bytes")
        ∧ (Decode r tb k).err ≠ (Decode r tokenBytes k).err) := by
  have h1 : Decode r tokenBytes k = ⟨some errSignature, r, tokenBytes⟩ := by
    by_cases hl : S.length = signatureLen
    · rcases hbad with hb | hb
      · exact absurd hl hb
      · exact Decode_bad_signature r _ k P S more hsplit hl hb
    · exact Decode_bad_length r _ k P S more hsplit hl
  refine ⟨by rw [h1]; rfl, fun tb htb => ?_⟩
  rw [h1, Decode_no_sep r tb k htb]
  have hne : some errMalformed ≠ some errSignature := by decide
  exact ⟨rfl, hne⟩

set_option maxRecDepth 1000000 in
set_option maxHeartbeats 4000000 in
/-- Witness of C11: a signature piece of three bytes. -/
theorem decode_error_kinds_witness :
    (Decode zeroToken (lit "e30.abc") (lit "k")).err
      = some (.errorString "invalid token bytes, signature mismatch") :=
  (decode_error_kinds zeroToken (lit "e30.abc") (lit "k") (lit "e30") (lit "abc") []
    (by decide) (Or.inl (by decide))).1

set_option maxRecDepth 1000000 in
set_option maxHeartbeats 4000000 in
/-- Counterexample to C11 as stated: the input `e30.abc`, whose signature
piece has three bytes, and the input `e30.` followed by 64 digits `0`, whose
signature piece has the right length and does not match, make `Decode` return
the same error. -/
theorem decode_error_kinds_counterexample :
    (lit "abc").length ≠ 64
    ∧ (List.replicate 64 (48 : Byte)).length = 64
    ∧ List.replicate 64 (48 : Byte) ≠ hex.encode (hmac.sum (lit "k") (lit "e30"))
    ∧ (Decode zeroToken (lit "e30.abc") (lit "k")).err
      = (Decode zeroToken (lit "e30." ++ List.replicate 64 48) (lit "k")).err := by
  decide!

/-- C13 (as amended): for every token, key and receiver, `Decode` accepts what
`Encode` wrote whatever the `AuthType` is, one of the seven wire values or
not, and returns the `AuthType` as it was encoded when it is valid UTF-8 (as
`foo` and the empty string are). -/
theorem decode_accepts_any_auth_type (t r : SessionToken) (k : Bytes)
    (hv : utf8.Valid t.AuthType = true) :
    ∃ b, Encode t k = some (.ok b) ∧ (Decode r b k).err = none
      ∧ (Decode r b k).token.AuthType = t.AuthType := by
  refine ⟨_, Encode_marshalBytes t k, ?_⟩
  rw [Decode_Encode]
  exact ⟨rfl, coerceUTF8_valid _ _ hv⟩

/-- Witness of C13: the `AuthType` `foo`. -/
theorem decode_accepts_any_auth_type_witness :
    unknownAuthToken.AuthType ∉ authTypes
    ∧ ∃ b, Encode unknownAuthToken (lit "secret") = some (.ok b)
      ∧ (Decode zeroToken b (lit "secret")).err = none
      ∧ (Decode zeroToken b (lit "secret")).token.AuthType = unknownAuthToken.AuthType :=
  ⟨by decide, decode_accepts_any_auth_type unknownAuthToken zeroToken (lit "secret") (by decide)⟩

set_option maxRecDepth 1000000 in
set_option maxHeartbeats 4000000 in
/-- Counterexample to C13 as stated: the scenario token with the `AuthType`
`foo`, which is none of the seven wire values, is encoded, and `Decode` of the
result returns no error and a token that carries `foo`. -/
theorem decode_unknown_auth_type_counterexample :
    lit "foo" ∉ authTypes
    ∧ ∃ b, Encode unknownAuthToken (lit "secret") = some (.ok b)
      ∧ Decode zeroToken b (lit "secret") = ⟨none, unknownAuthToken, b⟩
      ∧ (Decode zeroToken b (lit "secret")).token.AuthType = lit "foo" := by
  refine ⟨by decide, _, Encode_marshalBytes _ _, ?_⟩
  rw [Decode_Encode]
  decide

theorem json.saveError_token (st : json.DecodeState) (e : GoError) :
    (json.saveError st e).2 = st.2 := by
  unfold json.saveError
  split <;> rfl

theorem json.saveError_some (st : json.DecodeState) (e e0 : GoError) (h : st.1 = some e0) :
    (json.saveError st e).1 = some e0 := by
  unfold json.saveError
  split
  · rename_i h2; rw [h] at h2; cases h2
  · exact h

theorem json.saveError_none (st : json.DecodeState) (e : GoError) (h : st.1 = none) :
    (json.saveError st e).1 = some e := by
  unfold json.saveError
  split
  · rfl
  · rename_i h2; rw [h] at h2; cases h2

theorem sameField_refl (f : json.Field) (a : SessionToken) : sameField f a a = true := by
  cases f <;> simp [sameField]

theorem sameField_trans (f : json.Field) (a b c : SessionToken)
    (h1 : sameField f a b = true) (h2 : sameField f b c = true) : sameField f a c = true := by
  cases f <;> simp only [sameField, decide_eq_true_eq] at h1 h2 ⊢ <;> rw [h1, h2]

/-- A member stored in one field leaves the other fields as they are. -/
theorem json.store_other (st : json.DecodeState) (f g : json.Field) (v : json.Value)
    (h : g ≠ f) : sameField f (json.store st g v).2 st.2 = true := by
  cases v <;> cases g <;> cases f <;>
    first
    | exact absurd rfl h
    | (simp [json.store, sameField, json.saveError_token]; done)
    | (simp only [json.store]; split <;> simp [sameField, json.saveError_token])

theorem json.store_accepts (st : json.DecodeState) (f : json.Field) (v : json.Value)
    (h : json.accepts f v = true) : (json.store st f v).1 = st.1 := by
  cases v <;> cases f <;> simp only [json.accepts, Bool.false_eq_true] at h <;>
    first
    | rfl
    | (simp only [json.store]
       rcases hp : json.parseInt64 _ with _ | n
       · rw [hp] at h; cases h
       · rfl)

theorem json.store_rejects (st : json.DecodeState) (f : json.Field) (v : json.Value)
    (h : json.accepts f v = false) : json.store st f v = json.saveError st .jsonUnmarshalType := by
  cases v <;> cases f <;> simp only [json.accepts, Bool.true_eq_false] at h <;>
    first
    | rfl
    | (simp only [json.store]
       rcases hp : json.parseInt64 _ with _ | n
       · rfl
       · rw [hp] at h; cases h)

theorem json.store_some (st : json.DecodeState) (f : json.Field) (v : json.Value) (e : GoError)
    (h : st.1 = some e) : (json.store st f v).1 = some e := by
  cases hacc : json.accepts f v
  · rw [json.store_rejects st f v hacc]; exact json.saveError_some st _ e h
  · rw [json.store_accepts st f v hacc]; exact h

theorem json.storeMembers_some (ms : List (Bytes × json.Value)) :
    ∀ (st : json.DecodeState) (e : GoError), st.1 = some e → (json.storeMembers ms st).1 = some e := by
  induction ms with
  | nil => intro st e h; exact h
  | cons kv rest ih =>
    intro st e h
    obtain ⟨key, v⟩ := kv
    simp only [json.storeMembers]
    split
    · exact ih _ e (json.store_some st _ v e h)
    · exact ih st e h

/-- A field that no member of the object selects keeps its value. -/
theorem json.storeMembers_missing (f : json.Field) (ms : List (Bytes × json.Value)) :
    ∀ st : json.DecodeState, (∀ kv ∈ ms, json.fieldFor kv.1 ≠ some f) →
      sameField f (json.storeMembers ms st).2 st.2 = true := by
  induction ms with
  | nil => intro st _; exact sameField_refl f _
  | cons kv rest ih =>
    intro st h
    obtain ⟨key, v⟩ := kv
    have hrest := fun kv hkv => h kv (List.mem_cons_of_mem _ hkv)
    have hkey := h (key, v) (List.mem_cons_self _ _)
    simp only [json.storeMembers]
    split
    · rename_i g hg
      have hne : g ≠ f := by
        rintro rfl
        exact hkey hg
      exact sameField_trans f _ _ _ (ih _ hrest) (json.store_other st f g v hne)
    · exact ih st hrest

/-- Members whose values suit their fields are stored without error. -/
theorem json.storeMembers_accepts (ms : List (Bytes × json.Value)) :
    ∀ st : json.DecodeState,
      (∀ kv ∈ ms, ∀ g, json.fieldFor kv.1 = some g → json.accepts g kv.2 = true) →
      (json.storeMembers ms st).1 = st.1 := by
  induction ms with
  | nil => intro st _; rfl
  | cons kv rest ih =>
    intro st h
    obtain ⟨key, v⟩ := kv
    have hrest := fun kv hkv => h kv (List.mem_cons_of_mem _ hkv)
    have hkey := h (key, v) (List.mem_cons_self _ _)
    simp only [json.storeMembers]
    split
    · rename_i g hg
      rw [ih _ hrest, json.store_accepts st g v (hkey g hg)]
    · exact ih st hrest

/-- A member whose value does not suit its field makes the decode end with an
`UnmarshalTypeError`. -/
theorem json.storeMembers_rejects (ms : List (Bytes × json.Value)) :
    ∀ st : json.DecodeState, (st.1 = none ∨ st.1 = some .jsonUnmarshalType) →
      (∃ kv ∈ ms, ∃ g, json.fieldFor kv.1 = some g ∧ json.accepts g kv.2 = false) →
      (json.storeMembers ms st).1 = some .jsonUnmarshalType := by
  induction ms with
  | nil => intro st _ h; obtain ⟨kv, hkv, -⟩ := h; cases hkv
  | cons kv rest ih =>
    intro st hst h
    obtain ⟨key, v⟩ := kv
    obtain ⟨kv2, hkv2, g2, hg2, hacc⟩ := h
    simp only [json.storeMembers]
    rcases List.mem_cons.1 hkv2 with rfl | hmem
    · simp only at hg2 hacc
      rw [hg2]
      simp only
      apply json.storeMembers_some
      rw [json.store_rejects st g2 v hacc]
      exact (json.saveError_kind st hst).1
    · split
      · rename_i g hg
        refine ih _ ?_ ⟨kv2, hmem, g2, hg2, hacc⟩
        rcases json.store_err st g v hst with h2 | h2
        · rw [h2]; exact hst
        · exact Or.inr h2
      · exact ih st hst ⟨kv2, hmem, g2, hg2, hacc⟩

/-- The result of `Decode` on a payload without separator that is followed
by its own signature. -/
theorem Decode_own_signature (r : SessionToken) (k P : Bytes) (hP : 46 ∉ P) :
    Decode r (P ++ 46 :: hex.encode (hmac.sum k P)) k =
      match (base64.decode (base64Pad P)).2 with
      | some offset => ⟨some (.corruptInput offset), r, P ++ 46 :: hex.encode (hmac.sum k P)⟩
      | none =>
        ⟨(json.Unmarshal (base64.decode (base64Pad P)).1 r).1,
         (json.Unmarshal (base64.decode (base64Pad P)).1 r).2,
         P ++ 46 :: hex.encode (hmac.sum k P)⟩ := by
  refine Decode_signed r _ k P [] ?_
  have hP2 : tokenBytesSplitSep ∉ P := hP
  show bytesSplit (P ++ tokenBytesSplitSep :: _) tokenBytesSplitSep = _
  rw [bytesSplit_append _ _ _ hP2, bytesSplit_no_sep _ _ (signature_no_sep _)]

theorem json.Unmarshal_object (x : Bytes) (r : SessionToken) (ms : List (Bytes × json.Value))
    (hx : json.parse x = some (.object ms)) :
    json.Unmarshal x r = json.storeMembers ms (none, r) := by
  simp only [json.Unmarshal, hx]

/-- C12 (as amended): a JSON object that lacks a field is not rejected for
it.  For every key, receiver and correctly signed payload that is the
unpadded base64 of a JSON object in which no member selects the field `f`,
the field `f` of the receiver is after `Decode` what it was before, and
`Decode` returns no error when the values of the members that are there suit
their fields. -/
theorem decode_missing_field (r : SessionToken) (k x : Bytes) (ms : List (Bytes × json.Value))
    (f : json.Field) (hx : json.parse x = some (.object ms))
    (hmiss : ∀ kv ∈ ms, json.fieldFor kv.1 ≠ some f) :
    sameField f
        (Decode r (payloadOf x ++ 46 :: hex.encode (hmac.sum k (payloadOf x))) k).token r = true
    ∧ ((∀ kv ∈ ms, ∀ g, json.fieldFor kv.1 = some g → json.accepts g kv.2 = true) →
        (Decode r (payloadOf x ++ 46 :: hex.encode (hmac.sum k (payloadOf x))) k).err = none) := by
  rw [Decode_accept r x _ k [] (bytesSplit_wire _ _), json.Unmarshal_object x r ms hx]
  exact ⟨json.storeMembers_missing f ms (none, r) hmiss,
    fun h => json.storeMembers_accepts ms (none, r) h⟩

set_option maxRecDepth 1000000 in
set_option maxHeartbeats 4000000 in
/-- Witness of C12: the object with the one member `user_id`, 7, decoded
into a receiver that holds the scenario token: the `SessionId` stays `s1`. -/
theorem decode_missing_field_witness :
    sameField .SessionId
      (Decode scenarioToken
        (payloadOf (lit "\x7b\"user_id\":7\x7d") ++ 46
          :: hex.encode (hmac.sum (lit "k") (payloadOf (lit "\x7b\"user_id\":7\x7d"))))
        (lit "k")).token scenarioToken = true :=
  (decode_missing_field scenarioToken (lit "k") (lit "\x7b\"user_id\":7\x7d")
    [(lit "user_id", .number (lit "7"))] .SessionId (by rfl) (by decide)).1

set_option maxRecDepth 1000000 in
set_option maxHeartbeats 4000000 in
/-- Counterexample to C12 as stated: the payload `e30` is the unpadded
base64 of the empty object, which lacks all eight fields; signed under the key
`k` it is accepted, and the receiver keeps the scenario token it held. -/
theorem decode_missing_field_counterexample :
    payloadOf (lit "\x7b\x7d") = lit "e30"
    ∧ hex.encode (hmac.sum (lit "k") (lit "e30"))
      = lit "59e55d56db5ab36030ca80f782abe9b97721df4f1662f7329caa25c52c8743d9"
    ∧ Decode scenarioToken
        (lit "e30.59e55d56db5ab36030ca80f782abe9b97721df4f1662f7329caa25c52c8743d9") (lit "k")
      = ⟨none, scenarioToken,
          lit "e30.59e55d56db5ab36030ca80f782abe9b97721df4f1662f7329caa25c52c8743d9"⟩ := by
  decide!

/-- C14 (as amended): for every key, receiver and payload without separator
that is followed by its own signature: when the padded payload is not base64,
`Decode` returns the `CorruptInputError` of the decoder; when it is, and the
decoded bytes are not JSON, a `SyntaxError`; when they are a JSON array,
string, number or boolean, or an object with a member whose value does not
suit the field it selects, an `UnmarshalTypeError`; and when they are the
JSON value `null`, `Decode` returns no error and leaves the receiver as it
was. -/
theorem decode_signed_garbage (r : SessionToken) (k P : Bytes) (hP : 46 ∉ P) :
    (∀ offset, (base64.decode (base64Pad P)).2 = some offset →
      Decode r (P ++ 46 :: hex.encode (hmac.sum k P)) k
        = ⟨some (.corruptInput offset), r, P ++ 46 :: hex.encode (hmac.sum k P)⟩)
    ∧ ((base64.decode (base64Pad P)).2 = none →
      (json.parse (base64.decode (base64Pad P)).1 = none →
        Decode r (P ++ 46 :: hex.encode (hmac.sum k P)) k
          = ⟨some .jsonSyntax, r, P ++ 46 :: hex.encode (hmac.sum k P)⟩)
      ∧ (∀ v, json.parse (base64.decode (base64Pad P)).1 = some v → v ≠ .null →
          (∀ ms, v ≠ .object ms) →
        Decode r (P ++ 46 :: hex.encode (hmac.sum k P)) k
          = ⟨some .jsonUnmarshalType, r, P ++ 46 :: hex.encode (hmac.sum k P)⟩)
      ∧ (∀ ms, json.parse (base64.decode (base64Pad P)).1 = some (.object ms) →
          (∃ kv ∈ ms, ∃ g, json.fieldFor kv.1 = some g ∧ json.accepts g kv.2 = false) →
        (Decode r (P ++ 46 :: hex.encode (hmac.sum k P)) k).err = some .jsonUnmarshalType)
      ∧ (json.parse (base64.decode (base64Pad P)).1 = some .null →
        Decode r (P ++ 46 :: hex.encode (hmac.sum k P)) k
          = ⟨none, r, P ++ 46 :: hex.encode (hmac.sum k P)⟩)) := by
  rw [Decode_own_signature r k P hP]
  refine ⟨fun offset h => by rw [h], fun h => ?_⟩
  rw [h]
  refine ⟨fun hp => ?_, fun v hp hn ho => ?_, fun ms hp hm => ?_, fun hp => ?_⟩
  · simp only [json.Unmarshal, hp]
  · cases v with
    | null => exact absurd rfl hn
    | object ms => exact absurd rfl (ho ms)
    | _ => simp only [json.Unmarshal, hp]
  · simp only [json.Unmarshal_object _ r ms hp]
    exact json.storeMembers_rejects ms (none, r) (Or.inl rfl) hm
  · simp only [json.Unmarshal, hp]

set_option maxRecDepth 1000000 in
set_option maxHeartbeats 4000000 in
/-- Witness of C14: the payload `!!`, which is not base64, and the payload
of the object whose `user_id` is the string `7`, both with their
signatures. -/
theorem decode_signed_garbage_witness :
    Decode zeroToken (lit "!!" ++ 46 :: hex.encode (hmac.sum (lit "k") (lit "!!"))) (lit "k")
      = ⟨some (.corruptInput 0), zeroToken,
          lit "!!" ++ 46 :: hex.encode (hmac.sum (lit "k") (lit "!!"))⟩
    ∧ (Decode zeroToken (lit "eyJ1c2VyX2lkIjoiNyJ9" ++ 46
          :: hex.encode (hmac.sum (lit "k") (lit "eyJ1c2VyX2lkIjoiNyJ9"))) (lit "k")).err
      = some .jsonUnmarshalType :=
  ⟨(decode_signed_garbage zeroToken (lit "k") (lit "!!") (by decide)).1 0 (by decide),
   ((decode_signed_garbage zeroToken (lit "k") (lit "eyJ1c2VyX2lkIjoiNyJ9") (by decide)).2
      (by decide)).2.2.1 [(lit "user_id", .string (lit "7"))] (by rfl)
      ⟨(lit "user_id", .string (lit "7")), List.mem_cons_self _ _, .UserId, by decide, by rfl⟩⟩

set_option maxRecDepth 1000000 in
set_option maxHeartbeats 4000000 in
/-- Counterexample to C14 as stated: the payload `bnVsbA` is valid base64
and decodes to the bytes `null`, which are not a JSON object; signed under the
key `k` it is accepted, and the receiver keeps the scenario token it held. -/
theorem decode_signed_null_counterexample :
    base64.decode (base64Pad (lit "bnVsbA")) = (lit "null", none)
    ∧ hex.encode (hmac.sum (lit "k") (lit "bnVsbA"))
      = lit "37e8e80ef003830c06a20f3f8153d247ea7408af4a5566c91b5bd569f373f443"
    ∧ Decode scenarioToken
        (lit "bnVsbA.37e8e80ef003830c06a20f3f8153d247ea7408af4a5566c91b5bd569f373f443") (lit "k")
      = ⟨none, scenarioToken,
          lit "bnVsbA.37e8e80ef003830c06a20f3f8153d247ea7408af4a5566c91b5bd569f373f443"⟩ := by
  decide!

/-- C16: for every `userId`, a cache miss reported by `Get` makes
`getFromCache` return `ErrNotFound` and leave the user record as it was; any
other error of `Get` is returned unchanged, the record again as it was; and
when `Get` succeeds the result is that of `json.Unmarshal` of the cached value
into the record. -/
theorem cache_lookup_error_mapping {Error User : Type} [DecidableEq Error]
    (ErrCacheMiss ErrNotFound : Error) (Get : Bytes → Except Error model.Item)
    (UserCacheKey : Int64 → Bytes) (Unmarshal : Bytes → User → Option Error × User)
    (userId : Int64) (user : User) :
    (Get (UserCacheKey userId) = .error ErrCacheMiss →
      model.getFromCache ErrCacheMiss ErrNotFound Get UserCacheKey Unmarshal userId user
        = (some ErrNotFound, user))
    ∧ (∀ e, e ≠ ErrCacheMiss → Get (UserCacheKey userId) = .error e →
      model.getFromCache ErrCacheMiss ErrNotFound Get UserCacheKey Unmarshal userId user
        = (some e, user))
    ∧ (∀ item, Get (UserCacheKey userId) = .ok item →
      model.getFromCache ErrCacheMiss ErrNotFound Get UserCacheKey Unmarshal userId user
        = Unmarshal item.Value user) := by
  refine ⟨fun h => ?_, fun e he h => ?_, fun item h => ?_⟩
  · simp only [model.getFromCache, h, if_true]
  · simp only [model.getFromCache, h, if_neg he]
  · simp only [model.getFromCache, h]

/-- Witness of C16: a client that reports a cache miss, a client that
reports another error, and a client that holds a value. -/
theorem cache_lookup_error_mapping_witness :
    model.getFromCache "memcache: cache miss" "not found"
        (fun _ => .error "memcache: cache miss") (fun _ => lit "user/42")
        (fun _ (u : Nat) => (none, u + 1)) ⟨42, by decide⟩ 7 = (some "not found", 7)
    ∧ model.getFromCache "memcache: cache miss" "not found"
        (fun _ => .error "memcache: server error") (fun _ => lit "user/42")
        (fun _ (u : Nat) => (none, u + 1)) ⟨42, by decide⟩ 7 = (some "memcache: server error", 7)
    ∧ model.getFromCache "memcache: cache miss" "not found"
        (fun _ => .ok ⟨lit "8"⟩) (fun _ => lit "user/42")
        (fun _ (u : Nat) => (none, u + 1)) ⟨42, by decide⟩ 7 = (none, 8) :=
  ⟨(cache_lookup_error_mapping "memcache: cache miss" "not found" _ _ _ _ _).1 rfl,
   (cache_lookup_error_mapping "memcache: cache miss" "not found" _ _ _ _ _).2.1 _ (by decide) rfl,
   (cache_lookup_error_mapping "memcache: cache miss" "not found" _ _ _ _ _).2.2 _ rfl⟩

theorem isLiteralOf_quote (s : Bytes) : isLiteralOf (json.quote s) s :=
  ⟨fun rest => json.parseValue_string 0 0 s rest, fun _ => rfl⟩

set_option maxRecDepth 1000000 in
set_option maxHeartbeats 4000000 in
/-- C2: for every token and key, `Encode` returns exactly `P ++ "." ++ H`.
The JSON bytes are the object of the eight members `sid`, `token_id`,
`authenticated`, `user_id`, `auth_type`, `password_tag`, `exp_access`,
`exp_refresh` in this order, each of the four string members a literal of its
field (the literal `appendString` writes when the field is valid UTF-8, and in
every case one that reads back as the field with the bytes that are not valid
UTF-8 replaced by `U+FFFD`), `P` is their URL-safe base64 encoding without its
trailing `=` bytes (at most two), and `H` is the lower-case hexadecimal
HMAC-SHA256 of the bytes `P` under the key.  The last two conjuncts fix the
routines at values computed outside this file: the tag of test case 2 of
RFC 4231, and the bytes of the scenario token under the key `secret`. -/
theorem encode_wire_format (t : SessionToken) (k : Bytes) :
    (∃ jsonBytes sid tokenId authType passwordTag P j,
      json.Marshal t = .ok jsonBytes
      ∧ jsonBytes = jsonObject sid tokenId t.Authenticated t.UserId authType passwordTag
          t.ExpAccess t.ExpRefresh
      ∧ isLiteralOf sid t.SessionId ∧ isLiteralOf tokenId t.TokenId
      ∧ isLiteralOf authType t.AuthType ∧ isLiteralOf passwordTag t.PasswordTag
      ∧ base64.encode jsonBytes = P ++ List.replicate j base64.padChar ∧ j ≤ 2
      ∧ base64.padChar ∉ P
      ∧ Encode t k = some (.ok (P ++ lit "." ++ hex.encode (hmac.sum k P))))
    ∧ hex.encode (hmac.sum (lit "Jefe") (lit "what do ya want for nothing?"))
      = lit "5bdcc146bf60754e6a042426089575c75a003f089d2739839dec58b964ec3843"
    ∧ Encode scenarioToken (lit "secret") = some (.ok scenarioWire) := by
  refine ⟨?_, by decide!, by decide!⟩
  obtain ⟨j, h1, h2, h3⟩ := payloadOf_spec (marshalBytes t)
  refine ⟨marshalBytes t, json.quote t.SessionId, json.quote t.TokenId, json.quote t.AuthType,
    json.quote t.PasswordTag, payloadOf (marshalBytes t), j, json.Marshal_eq t, rfl,
    isLiteralOf_quote _, isLiteralOf_quote _, isLiteralOf_quote _, isLiteralOf_quote _, h1, h2,
    ?_, ?_⟩
  · intro hm
    exact urlSafe_ne_pad (h3 _ hm) rfl
  · rw [Encode_marshalBytes]
    simp [show lit "." = [46] from rfl]

set_option maxRecDepth 1000000 in
set_option maxHeartbeats 4000000 in
/-- Witness of C2: the scenario token under the key `secret`; its payload is
the base64 of the 160 JSON bytes without the two `=`, and its signature the
64 digits that end the wire bytes. -/
theorem encode_wire_format_witness :
    base64.encode (marshalBytes scenarioToken)
      = scenarioWire.take 214 ++ List.replicate 2 base64.padChar
    ∧ hex.encode (hmac.sum (lit "secret") (scenarioWire.take 214)) = scenarioWire.drop 215
    ∧ Encode scenarioToken (lit "secret")
      = some (.ok (scenarioWire.take 214 ++ lit "." ++ scenarioWire.drop 215)) :=
  ⟨by decide!, by decide!, (encode_wire_format scenarioToken (lit "secret")).2.2.trans (by decide!)⟩

/-- The traced decoder returns what `Decode` returns. -/
theorem DecodeTraced_fst (token : SessionToken) (tokenBytes securityKey : Bytes) :
    (DecodeTraced token tokenBytes securityKey).1 = Decode token tokenBytes securityKey := by
  unfold DecodeTraced Decode
  simp only []
  split_ifs
  · rfl
  · rfl
  · rfl
  · cases (base64.decode (base64Pad ((bytesSplit tokenBytes tokenBytesSplitSep).getD 0 []))).2 <;> rfl

theorem DecodeTraced_bad_length (token : SessionToken) (tokenBytes securityKey p s : Bytes)
    (more : List Bytes) (h : bytesSplit tokenBytes tokenBytesSplitSep = p :: s :: more)
    (hl : s.length ≠ signatureLen) :
    DecodeTraced token tokenBytes securityKey
      = (⟨some (.errorString "invalid token bytes, signature mismatch"), token, tokenBytes⟩, []) := by
  simp [DecodeTraced, h, hl]

theorem DecodeTraced_bad_signature (token : SessionToken) (tokenBytes securityKey p s : Bytes)
    (more : List Bytes) (h : bytesSplit tokenBytes tokenBytesSplitSep = p :: s :: more)
    (hl : s.length = signatureLen) (hs : s ≠ hex.encode (hmac.sum securityKey p)) :
    DecodeTraced token tokenBytes securityKey
      = (⟨some (.errorString "invalid token bytes, signature mismatch"), token, tokenBytes⟩,
          [.hmacSum securityKey p, .hexEncode (hmac.sum securityKey p),
            .bytesEqual (hex.encode (hmac.sum securityKey p)) s]) := by
  have hc : copyInto (List.replicate signatureLen 0) (hex.encode (hmac.sum securityKey p))
      = hex.encode (hmac.sum securityKey p) :=
    copyInto_full _ _ (by simp [signature_length, signatureLen])
  simp [DecodeTraced, h, hl, hc, Ne.symm hs]

/-- C10 (as amended): when the second piece of the split input has a length
other than 64, `Decode` returns the error with the text
`invalid token bytes, signature mismatch` and leaves receiver and input as
they were, and it returns before any call of HMAC, `hex.Encode` or
`bytes.Equal`: the trace of the calls is empty.  The error is the one returned
for a second piece of 64 bytes that is not the HMAC of the first, where the
trace holds the three calls.  For every token and key, the bytes `Encode`
returns without their last byte are rejected by the length check, under any
key. -/
theorem decode_length_guard (r : SessionToken) (tokenBytes k P S : Bytes) (more : List Bytes)
    (hsplit : bytesSplit tokenBytes tokenBytesSplitSep = P :: S :: more)
    (hl : S.length ≠ signatureLen) :
    DecodeTraced r tokenBytes k
      = (⟨some (.errorString "invalid token bytes, signature mismatch"), r, tokenBytes⟩, [])
    ∧ Decode r tokenBytes k
      = ⟨some (.errorString "invalid token bytes, signature mismatch"), r, tokenBytes⟩
    ∧ (∀ r2 tb k2, (DecodeTraced r2 tb k2).1 = Decode r2 tb k2)
    ∧ (∀ (tb P2 S2 : Bytes) (more2 : List Bytes),
        bytesSplit tb tokenBytesSplitSep = P2 :: S2 :: more2 → S2.length = signatureLen →
        S2 ≠ hex.encode (hmac.sum k P2) →
        (Decode r tb k).err = (Decode r tokenBytes k).err
        ∧ (DecodeTraced r tb k).2
          = [.hmacSum k P2, .hexEncode (hmac.sum k P2),
              .bytesEqual (hex.encode (hmac.sum k P2)) S2])
    ∧ (∀ (t : SessionToken) (k1 : Bytes), ∃ b, Encode t k1 = some (.ok b)
        ∧ DecodeTraced r b.dropLast k
          = (⟨some (.errorString "invalid token bytes, signature mismatch"), r, b.dropLast⟩,
              [])) := by
  have h1 := DecodeTraced_bad_length r tokenBytes k P S more hsplit hl
  have h2 : Decode r tokenBytes k
      = ⟨some (.errorString "invalid token bytes, signature mismatch"), r, tokenBytes⟩ := by
    rw [← DecodeTraced_fst, h1]
  refine ⟨h1, h2, DecodeTraced_fst, ?_, ?_⟩
  · intro tb P2 S2 more2 hs2 hl2 hne
    have h3 := DecodeTraced_bad_signature r tb k P2 S2 more2 hs2 hl2 hne
    refine ⟨?_, by rw [h3]⟩
    rw [h2, ← DecodeTraced_fst, h3]
  · intro t k1
    refine ⟨_, Encode_marshalBytes t k1, ?_⟩
    have hH := signature_length k1 (payloadOf (marshalBytes t))
    have hne : hex.encode (hmac.sum k1 (payloadOf (marshalBytes t))) ≠ [] := by
      intro h; rw [h] at hH; simp at hH
    rw [List.dropLast_append_cons, List.dropLast_cons_of_ne_nil hne]
    refine DecodeTraced_bad_length r _ k (payloadOf (marshalBytes t))
      (hex.encode (hmac.sum k1 (payloadOf (marshalBytes t)))).dropLast [] ?_ ?_
    · have hp : (46 : Byte) ∉ payloadOf (marshalBytes t) := payloadOf_no_sep _
      have hs : (46 : Byte) ∉ (hex.encode (hmac.sum k1 (payloadOf (marshalBytes t)))).dropLast :=
        fun hm => signature_no_sep _ (List.mem_of_mem_dropLast hm)
      show bytesSplit (payloadOf (marshalBytes t) ++ 46 :: _) 46 = _
      rw [bytesSplit_append _ _ _ hp, bytesSplit_no_sep _ _ hs]
    · rw [List.length_dropLast, hH]; decide

set_option maxRecDepth 1000000 in
set_option maxHeartbeats 4000000 in
/-- Witness of C10: the input `e30.abc`, whose second piece has three bytes,
and the bytes of the scenario without the last one, whose second piece has 63
bytes. -/
theorem decode_length_guard_witness :
    bytesSplit (lit "e30.abc") tokenBytesSplitSep = [lit "e30", lit "abc"]
    ∧ (lit "abc").length ≠ signatureLen
    ∧ DecodeTraced zeroToken (lit "e30.abc") (lit "k")
      = (⟨some (.errorString "invalid token bytes, signature mismatch"), zeroToken,
          lit "e30.abc"⟩, [])
    ∧ DecodeTraced zeroToken scenarioWire.dropLast (lit "secret")
      = (⟨some (.errorString "invalid token bytes, signature mismatch"), zeroToken,
          scenarioWire.dropLast⟩, []) :=
  ⟨by decide, by decide,
    (decode_length_guard zeroToken (lit "e30.abc") (lit "k") (lit "e30") (lit "abc") []
      (by decide) (by decide)).1, by decide!⟩

set_option maxRecDepth 1000000 in
set_option maxHeartbeats 4000000 in
/-- Counterexample to C10 as stated: the bytes of the scenario without the
last one have a second piece of 63 bytes, the bytes of the scenario with the
last digit changed have a second piece of 64 bytes that is not the HMAC; under
the key `secret` the decoder returns the same error for both, so the failure
of the length check is not told apart from the failure of the comparison.
Only the calls made differ: none for the first, three for the second. -/
theorem decode_length_error_counterexample :
    bytesSplit scenarioWire.dropLast tokenBytesSplitSep
      = [scenarioWire.take 214, (scenarioWire.drop 215).dropLast]
    ∧ ((scenarioWire.drop 215).dropLast).length = 63
    ∧ bytesSplit (scenarioWire.set 278 67) tokenBytesSplitSep
      = [scenarioWire.take 214, (scenarioWire.drop 215).set 63 67]
    ∧ ((scenarioWire.drop 215).set 63 67).length = 64
    ∧ (scenarioWire.drop 215).set 63 67 ≠ hex.encode (hmac.sum (lit "secret") (scenarioWire.take 214))
    ∧ (Decode zeroToken scenarioWire.dropLast (lit "secret")).err
      = some (.errorString "invalid token bytes, signature mismatch")
    ∧ (Decode zeroToken (scenarioWire.set 278 67) (lit "secret")).err
      = some (.errorString "invalid token bytes, signature mismatch")
    ∧ (DecodeTraced zeroToken scenarioWire.dropLast (lit "secret")).2 = []
    ∧ (DecodeTraced zeroToken (scenarioWire.set 278 67) (lit "secret")).2.length = 3 := by
  decide!

end SessionTokenCodec
